import Mathlib

/-!
Verification development for the cgpde-lib library (src/cgpdelib.c).

The C doubles are modelled by an idealised value domain `DVal`:
either NaN, +infinity, -infinity, or a finite value carried as a rational.
The claims under study concern control flow over the NaN/Inf classification,
sanitisation, graph reachability, mutation bookkeeping and selection order,
none of which depend on rounding, so the rational idealisation is adequate.

C's `rand_r` is an external libc PRNG; the embedding is parametric in a
step function `R : Nat → Nat × Nat` mapping a seed state to the drawn value
and the successor state.  The global `rand()` used by the `_randFloat`
node function is likewise modelled by an explicit threaded state.
-/

namespace CGPDE

/-- Idealised C double: NaN, the two infinities, or a finite rational. -/

inductive DVal where
  | nan : DVal
  | posInf : DVal
  | negInf : DVal
  | fin : ℚ → DVal
deriving DecidableEq

instance : Inhabited DVal := ⟨.fin 0⟩

/-- Value of the float.h constant DBL_MAX, the largest finite double. -/

def DBL_MAX : ℚ := (2 ^ 53 - 1) * 2 ^ 971

/-- Value of the float.h constant DBL_MIN, the smallest positive normalised double. -/

def DBL_MIN : ℚ := 1 / 2 ^ 1022

/-- Mirror of C `isnan` on the idealised domain. -/

def disnan : DVal → Bool
  | .nan => true
  | _ => false

/-- Mirror of C `isinf` on the idealised domain. -/

def disinf : DVal → Bool
  | .posInf => true
  | .negInf => true
  | _ => false

/-- Mirror of the C comparison `output > 0` on the idealised domain. -/

def dgtZero : DVal → Bool
  | .posInf => true
  | .negInf => false
  | .nan => false
  | .fin q => decide (0 < q)

/-- The numeric sanitisation applied to each computed node output in
`executeChromosome` (src/cgpdelib.c lines 1291-1305): NaN becomes 0,
and an infinity is replaced by DBL_MAX when positive, DBL_MIN otherwise. -/

def sanitizeNodeOutput (v : DVal) : DVal :=
  if disnan v then .fin 0
  else if disinf v then
    (if dgtZero v then .fin DBL_MAX else .fin DBL_MIN)
  else v

/-- A node transfer function, state-passing translation of the C signature
`double (*)(int numInputs, const double *inputs, const double *weights)`.
The final `Nat` argument and result thread the global libc `rand()` state,
which the `_randFloat` catalog function reads and advances; all other
catalog functions ignore and preserve it. -/

def NodeFun : Type := Nat → List DVal → List ℚ → Nat → DVal × Nat

/-- Mirror of `struct node` (src/cgpdelib.c): function gene, input genes,
weight genes, cached output, active flag and actual arity.  `actArity` is
a C int, kept as `Int` (a negative value makes the operand loop empty). -/

structure Node where
  function : Nat
  inputs : List Nat
  weights : List ℚ
  output : DVal
  active : Bool
  actArity : Int
deriving Inhabited

/-- Mirror of `struct chromosome` together with its embedded copy of
`struct functionSet` (`funcs` are the function pointers, `maxNumInputs`
their declared arities).  The C `numActiveNodes` counter always equals the
length of the used prefix of the `activeNodes` array, so the pair is
represented by the single list `activeNodes`. -/

structure Chromosome where
  numInputs : Nat
  numNodes : Nat
  numOutputs : Nat
  arity : Nat
  nodes : List Node
  outputNodes : List Nat
  activeNodes : List Nat
  outputValues : List DVal
  fitness : ℚ
  fitnessValidation : ℚ
  funcs : List NodeFun
  maxNumInputs : List Int

instance : Inhabited Chromosome :=
  ⟨⟨0, 0, 0, 0, [], [], [], [], 0, 0, [], []⟩⟩

/-- Resolution of an address against a chromosome state, as performed both
in the operand-gathering loop and in the output loop of `executeChromosome`
(src/cgpdelib.c lines 1276-1281 and 1311-1316): an address below
`numInputs` denotes a sample input, otherwise the cached output of node
`address - numInputs`. -/

def gatherVal (c : Chromosome) (inputs : List DVal) (loc : Nat) : DVal :=
  if loc < c.numInputs then inputs.getD loc (.fin 0)
  else ((c.nodes.getD (loc - c.numInputs) default).output)

/-- One iteration of the active-node loop of `executeChromosome`
(src/cgpdelib.c lines 1262-1306): gather the node's `actArity` operands,
apply its transfer function, sanitise, and store the cached output. -/

def executeNodeStep (inputs : List DVal) : Chromosome × Nat → Nat → Chromosome × Nat :=
  fun cg nodeIdx =>
    let c := cg.1
    let node := c.nodes.getD nodeIdx default
    let nodeArity := node.actArity.toNat
    let operands := (node.inputs.take nodeArity).map (gatherVal c inputs)
    let f := c.funcs.getD node.function (fun _ _ _ g => (.fin 0, g))
    let r := f nodeArity operands node.weights cg.2
    let out := sanitizeNodeOutput r.1
    ({ c with nodes := c.nodes.set nodeIdx { node with output := out } }, r.2)

/-- Mirror of `executeChromosome` (src/cgpdelib.c lines 1243-1318):
evaluate every active node in list order, then resolve each output gene. -/

def executeChromosome (c : Chromosome) (inputs : List DVal) (g : Nat) :
    Chromosome × Nat :=
  let cg := c.activeNodes.foldl (executeNodeStep inputs) (c, g)
  ({ cg.1 with outputValues := cg.1.outputNodes.map (gatherVal cg.1 inputs) }, cg.2)

/-- Mirror of `getChromosomeOutput` (src/cgpdelib.c lines 1324-1332).
`Except.error ()` models the `exit(0)` taken when the guard fires; on the
success path the array read is modelled by `getElem?`, so `some` is an
in-bounds read and `none` a read past the end of `outputValues`. -/

def getChromosomeOutput (c : Chromosome) (output : Int) :
    Except Unit (Option DVal) :=
  if output < 0 ∨ output > (c.numOutputs : Int) then .error ()
  else .ok (c.outputValues[output.toNat]?)

/-- Mirror of `getChromosomeNodeValue` (src/cgpdelib.c lines 1340-1347),
with the same conventions as `getChromosomeOutput`. -/

def getChromosomeNodeValue (c : Chromosome) (node : Int) :
    Except Unit (Option DVal) :=
  if node < 0 ∨ node > (c.numNodes : Int) then .error ()
  else .ok ((c.nodes[node.toNat]?).map (fun n => n.output))

/-- Transfer function used in witnesses: ignores its arguments, returns NaN. -/

def fConstNan : NodeFun := fun _ _ _ g => (.nan, g)

/-- Witness chromosome: one input, one node computing NaN, one output gene
pointing at that node. -/

def cNanEx : Chromosome where
  numInputs := 1
  numNodes := 1
  numOutputs := 1
  arity := 1
  nodes := [{ function := 0, inputs := [0], weights := [1], output := .fin 7,
              active := true, actArity := 1 }]
  outputNodes := [1]
  activeNodes := [0]
  outputValues := [.fin 7]
  fitness := 0
  fitnessValidation := 0
  funcs := [fConstNan]
  maxNumInputs := [-1]

/-- The C constant RAND_MAX of glibc. -/

def RAND_MAX : Nat := 2147483647

/-- A model of libc `rand_r`: maps a seed state to the drawn value and the
successor state.  The embedding is parametric in this function, since
`rand_r` is external to the repository. -/

def Rng : Type := Nat → Nat × Nat

/-- Fuel bound used for the rejection loops of `randInt` and the DE donor
draws.  The C loops are unbounded and terminate with probability 1; fuel
exhaustion (reachable only for pathological `Rng` functions, never in the
witnesses below) accepts the final draw. -/

def rejectionFuel : Nat := 64

/-- The rejection loop of `randInt` (src/cgpdelib.c lines 5450-5453):
redraw while the value exceeds `randLimit`. -/

def randIntGo (R : Rng) (randLimit : Nat) : Nat → Nat → Nat × Nat
  | 0, s => R s
  | fuel + 1, s =>
    let r := R s
    if r.1 > randLimit then randIntGo R randLimit fuel r.2 else r

/-- Mirror of `randInt` (src/cgpdelib.c lines 5437-5456): a random integer
in `[0, n)` without modulo bias. -/

def randInt (R : Rng) (n : Nat) (s : Nat) : Nat × Nat :=
  if n = 0 then (0, s)
  else
    let randExcess := (RAND_MAX % n) + 1
    let randLimit := RAND_MAX - randExcess
    let r := randIntGo R randLimit rejectionFuel s
    (r.1 % n, r.2)

/-- Mirror of `randDecimal` (src/cgpdelib.c lines 5368-5371):
`(rand_r(seed) % 1000000) / 1000000.`, a rational in `[0, 1)`. -/

def randDecimal (R : Rng) (s : Nat) : ℚ × Nat :=
  let r := R s
  (((r.1 % 1000000 : Nat) : ℚ) / 1000000, r.2)

/-- Mirror of `getRandomConnectionWeight` (src/cgpdelib.c lines 4814-4816). -/

def getRandomConnectionWeight (R : Rng) (weightRange : ℚ) (s : Nat) : ℚ × Nat :=
  let r := randDecimal R s
  (r.1 * 2 * weightRange - weightRange, r.2)

/-- Mirror of `getRandomFunction` (src/cgpdelib.c lines 4821-4830).  The C
function exits when `numFunctions < 1`; in that case `randInt` is passed 0
and returns 0 without consuming the seed, a state no caller below reaches. -/

def getRandomFunction (R : Rng) (numFunctions : Nat) (s : Nat) : Nat × Nat :=
  randInt R numFunctions s

/-- Mirror of `getRandomNodeInput` (src/cgpdelib.c lines 4835-4849). -/

def getRandomNodeInput (R : Rng) (numChromoInputs numNodes nodePosition : Nat)
    (recurrentConnectionProbability : ℚ) (s : Nat) : Nat × Nat :=
  let d := randDecimal R s
  if d.1 < recurrentConnectionProbability then
    let r := randInt R (numNodes - nodePosition) d.2
    (r.1 + nodePosition + numChromoInputs, r.2)
  else
    randInt R (numChromoInputs + nodePosition) d.2

/-- Mirror of `getRandomChromosomeOutput` (src/cgpdelib.c lines 4855-4866). -/

def getRandomChromosomeOutput (R : Rng) (numInputs numNodes : Nat)
    (shortcutConnections : Int) (s : Nat) : Nat × Nat :=
  if shortcutConnections = 1 then randInt R (numInputs + numNodes) s
  else
    let r := randInt R numNodes s
    (r.1 + numInputs, r.2)

/-- Mirror of the fields of `struct parameters` used by the embedded
operations (src/cgpdelib.c lines 40-80). -/

structure Params where
  numInputs : Nat
  numNodes : Nat
  numOutputs : Nat
  arity : Nat
  mu : Nat
  lambda : Nat
  mutationRate : ℚ
  recurrentConnectionProbability : ℚ
  connectionWeightRange : ℚ
  CR : ℚ
  F : ℚ
  numThreads : Int
  shortcutConnections : Int
deriving DecidableEq, Inhabited

/-- Mirror of `setMutationRate` (src/cgpdelib.c lines 628-636):
value in `[0,1]` is stored; otherwise a warning is printed (modelled by the
boolean flag) and the previous value is retained.  `Except.error` would
model `exit`, which this setter never calls. -/

def setMutationRate (p : Params) (r : ℚ) : Except Unit (Params × Bool) :=
  if 0 ≤ r ∧ r ≤ 1 then .ok ({ p with mutationRate := r }, false)
  else .ok (p, true)

/-- Mirror of `setNumThreads` (src/cgpdelib.c lines 777-785): a value
`<= 0` triggers the warning printf, but the assignment
`params->numThreads = numThreads` is unconditional, so the invalid value
is stored anyway; no exit. -/

def setNumThreads (p : Params) (n : Int) : Except Unit (Params × Bool) :=
  .ok ({ p with numThreads := n }, decide (n ≤ 0))

/-- Mirror of `setCR` (src/cgpdelib.c lines 846-855): a value outside
`[0,1]` prints a message and calls `exit(0)`, modelled by `Except.error`. -/

def setCR (p : Params) (cr : ℚ) : Except Unit (Params × Bool) :=
  if cr < 0 ∨ cr > 1 then .error () else .ok ({ p with CR := cr }, false)

/-- Concrete parameter record used by counterexamples and witnesses. -/

def pEx : Params where
  numInputs := 1
  numNodes := 1
  numOutputs := 1
  arity := 1
  mu := 1
  lambda := 1
  mutationRate := 1/20
  recurrentConnectionProbability := 0
  connectionWeightRange := 1
  CR := 1/2
  F := 1/2
  numThreads := 1
  shortcutConnections := 1

/-- One comparison-and-swap of the exchange sort in `sortChromosomeArray`
(src/cgpdelib.c lines 2429-2437): swap positions `i` and `j` when the
fitness at `i` exceeds the fitness at `j`. -/

def sortSwapIfGreater (a : List Chromosome) (i j : Nat) : List Chromosome :=
  if (a.getD i default).fitness > (a.getD j default).fitness then
    (a.set i (a.getD j default)).set j (a.getD i default)
  else a

/-- Mirror of `sortChromosomeArray` (src/cgpdelib.c lines 2424-2439):
for `i` from 0 to n-1 and `j` from `i` to n-1, swap when out of order.
Despite the source comment calling it a stable insertion sort, this is an
exchange sort. -/

def sortChromosomeArray (a : List Chromosome) : List Chromosome :=
  (List.range a.length).foldl
    (fun acc i =>
      (List.range' i (a.length - i)).foldl (fun acc2 j => sortSwapIfGreater acc2 i j) acc)
    a

/-- Mirror of `selectFittest` (src/cgpdelib.c lines 4744-4753): sort the
candidate pool by fitness and copy the first `numParents` entries into the
parent slots. -/

def selectFittest (candidateChromos : List Chromosome) (numParents : Nat) :
    List Chromosome :=
  (sortChromosomeArray candidateChromos).take numParents

/-- Child chromosome with fitness 2, tagged 10 in `fitnessValidation`. -/

def cTagA : Chromosome :=
  { (default : Chromosome) with fitness := 2, fitnessValidation := 10 }

/-- Child chromosome with fitness 2, tagged 20 in `fitnessValidation`. -/

def cTagB : Chromosome :=
  { (default : Chromosome) with fitness := 2, fitnessValidation := 20 }

/-- Parent chromosome with fitness 1, tagged 30 in `fitnessValidation`. -/

def cTagC : Chromosome :=
  { (default : Chromosome) with fitness := 1, fitnessValidation := 30 }

/-- Mirror of `getChromosomeNodeArity` (src/cgpdelib.c lines 2255-2269):
the function's declared arity clamped to the chromosome arity, where a
declared arity of -1 means "use the chromosome arity".  A function index
past the end of `maxNumInputs` is undefined behaviour in C; the embedding
defaults it to -1. -/

def getChromosomeNodeArity (c : Chromosome) (index : Nat) : Int :=
  let chromoArity : Int := (c.arity : Int)
  let maxArity : Int := c.maxNumInputs.getD (c.nodes.getD index default).function (-1)
  if maxArity = -1 then chromoArity
  else if maxArity < chromoArity then maxArity
  else chromoArity

/-- The addresses a node recurses into during the active-node search:
its input genes restricted to the node's actual arity
(src/cgpdelib.c lines 2361-2367). -/

def childAddrs (c : Chromosome) (n : Nat) : List Nat :=
  (c.nodes.getD n default).inputs.take (getChromosomeNodeArity c n).toNat

/-- Mirror of `recursivelySetActiveNodes` (src/cgpdelib.c lines 2342-2368).
The state is the list of marked node indices in discovery order; the C
`active` flag of a node is 1 exactly when its index is in the list, so the
flag array and the `activeNodes`/`numActiveNodes` pair are represented by
the single list.  The C recursion is cut by the flag check and therefore
terminates after at most `numNodes` fresh markings; the embedding carries
fuel, and `setChromosomeActiveNodes` passes `numNodes + 1`, which is
provably sufficient. -/

def recursivelySetActiveNodes (c : Chromosome) : Nat → List Nat → Nat → List Nat
  | 0, visited, _ => visited
  | fuel + 1, visited, nodeIndex =>
    if nodeIndex < c.numInputs then visited
    else if (nodeIndex - c.numInputs) ∈ visited then visited
    else
      (childAddrs c (nodeIndex - c.numInputs)).foldl
        (recursivelySetActiveNodes c fuel)
        (visited ++ [nodeIndex - c.numInputs])

/-- Helper of `setChromosomeActiveNodes`: walk the node list with its
index, setting the active flag (and, for marked nodes, the actual arity)
according to the visited set, as the C reset loop plus the writes at
src/cgpdelib.c lines 2357 and 2362 do. -/

def markNodesGo (c : Chromosome) (visited : List Nat) : Nat → List Node → List Node
  | _, [] => []
  | i, node :: rest =>
    (if i ∈ visited then
      { node with active := true, actArity := getChromosomeNodeArity c i }
     else { node with active := false }) :: markNodesGo c visited (i + 1) rest

/-- The node indices collected by the active-node search of
`setChromosomeActiveNodes` (src/cgpdelib.c lines 2314-2332), in discovery
order: starting from the reset (empty) state, search from every output
gene that addresses a node. -/

def chromoVisited (c : Chromosome) : List Nat :=
  c.outputNodes.foldl
    (fun st o =>
      if o < c.numInputs then st
      else recursivelySetActiveNodes c (c.numNodes + 1) st o)
    []

/-- Mirror of `setChromosomeActiveNodes` (src/cgpdelib.c lines 2304-2336):
reset the flags, search from every output gene that addresses a node, and
sort the collected indices ascending (the C `sortIntArray` wraps `qsort`
with an ascending comparator). -/

def setChromosomeActiveNodes (c : Chromosome) : Chromosome :=
  { c with activeNodes := (chromoVisited c).mergeSort (fun a b => decide (a ≤ b)),
           nodes := markNodesGo c (chromoVisited c) 0 c.nodes }

/-- Overwrite the function gene of node `i`. -/

def setNodeFunctionGene (c : Chromosome) (i : Nat) (f : Nat) : Chromosome :=
  let node := c.nodes.getD i default
  { c with nodes := c.nodes.set i { node with function := f } }

/-- Overwrite input gene `j` of node `i`. -/

def setNodeInputGene (c : Chromosome) (i j : Nat) (v : Nat) : Chromosome :=
  let node := c.nodes.getD i default
  { c with nodes := c.nodes.set i { node with inputs := node.inputs.set j v } }

/-- Overwrite weight gene `j` of node `i`. -/

def setNodeWeightGene (c : Chromosome) (i j : Nat) (w : ℚ) : Chromosome :=
  let node := c.nodes.getD i default
  { c with nodes := c.nodes.set i { node with weights := node.weights.set j w } }

/-- Overwrite output gene `i`. -/

def setOutputGene (c : Chromosome) (i : Nat) (v : Nat) : Chromosome :=
  { c with outputNodes := c.outputNodes.set i v }

/-- Per-input-gene body of `probabilisticMutation` (src/cgpdelib.c lines
3715-3726): maybe redraw input gene `j` of node `i`, then, only when
`type == 0` (CGPANN), maybe redraw the parallel weight gene.  The `&&`
short-circuit is mirrored: with `type ≠ 0` no weight-gene coin is drawn. -/

def probMutationInputStep (R : Rng) (p : Params) (type : Int) (i : Nat)
    (cs : Chromosome × Nat) (j : Nat) : Chromosome × Nat :=
  let d := randDecimal R cs.2
  let cs1 :=
    if d.1 ≤ p.mutationRate then
      let r := getRandomNodeInput R cs.1.numInputs cs.1.numNodes i
        p.recurrentConnectionProbability d.2
      (setNodeInputGene cs.1 i j r.1, r.2)
    else (cs.1, d.2)
  if type = 0 then
    let d2 := randDecimal R cs1.2
    if d2.1 ≤ p.mutationRate then
      let r := getRandomConnectionWeight R p.connectionWeightRange d2.2
      (setNodeWeightGene cs1.1 i j r.1, r.2)
    else (cs1.1, d2.2)
  else cs1

/-- Per-node body of `probabilisticMutation` (src/cgpdelib.c lines
3707-3727): maybe redraw the function gene (guarded by
`numFunctions > 1`, whose short-circuit draws no coin when the guard
fails), then process every input position. -/

def probMutationNodeStep (R : Rng) (p : Params) (type : Int)
    (cs : Chromosome × Nat) (i : Nat) : Chromosome × Nat :=
  let cs1 :=
    if 1 < cs.1.funcs.length then
      let d := randDecimal R cs.2
      if d.1 ≤ p.mutationRate then
        let r := getRandomFunction R cs.1.funcs.length d.2
        (setNodeFunctionGene cs.1 i r.1, r.2)
      else (cs.1, d.2)
    else cs
  (List.range p.arity).foldl (probMutationInputStep R p type i) cs1

/-- Per-output body of `probabilisticMutation` (src/cgpdelib.c lines
3730-3736). -/

def probMutationOutputStep (R : Rng) (p : Params)
    (cs : Chromosome × Nat) (i : Nat) : Chromosome × Nat :=
  let d := randDecimal R cs.2
  if d.1 ≤ p.mutationRate then
    let r := getRandomChromosomeOutput R cs.1.numInputs cs.1.numNodes
      p.shortcutConnections d.2
    (setOutputGene cs.1 i r.1, r.2)
  else (cs.1, d.2)

/-- Mirror of `probabilisticMutation` (src/cgpdelib.c lines 3702-3737),
the default mutation operator: every gene is redrawn independently with
probability `mutationRate`; weight genes participate only when
`type == 0` (CGPANN). -/

def probabilisticMutation (R : Rng) (p : Params) (c : Chromosome)
    (type : Int) (s : Nat) : Chromosome × Nat :=
  let cs1 := (List.range p.numNodes).foldl (probMutationNodeStep R p type) (c, s)
  (List.range p.numOutputs).foldl (probMutationOutputStep R p) cs1

/-- Mirror of `mutateChromosome` (src/cgpdelib.c lines 2047-2052) with the
default mutation operator `probabilisticMutation` installed
(src/cgpdelib.c line 256): mutate, then recompute the active nodes. -/

def mutateChromosome (R : Rng) (p : Params) (c : Chromosome) (type : Int)
    (s : Nat) : Chromosome × Nat :=
  let r := probabilisticMutation R p c type s
  (setChromosomeActiveNodes r.1, r.2)

/-- Mirror of `mutateRandomParent` (src/cgpdelib.c lines 4718-4731), the
default reproduction scheme: each child is a mutated copy of a uniformly
drawn parent. -/

def mutateRandomParent (R : Rng) (p : Params) (parents : List Chromosome)
    (numParents numChildren : Nat) (type : Int) (s : Nat) :
    List Chromosome × Nat :=
  (List.range numChildren).foldl
    (fun acc _ =>
      let r := randInt R numParents acc.2
      let m := mutateChromosome R p (parents.getD r.1 default) type r.2
      (acc.1 ++ [m.1], m.2))
    ([], s)

/-- The reproduction call of the `runCGPANN` generation loop
(src/cgpdelib.c line 3943), which passes mutation type 0: weight mutation
is applied. -/

def runCGPANN_reproduce (R : Rng) (p : Params) (parents : List Chromosome)
    (s : Nat) : List Chromosome × Nat :=
  mutateRandomParent R p parents p.mu p.lambda 0 s

/-- The reproduction call of the `runCGPDE_OUT` generation loop
(src/cgpdelib.c line 4355), which passes mutation type 1; the source
comment reads "Type 1: CGPDE (do NOT apply weight mutation here)". -/

def runCGPDE_OUT_reproduce (R : Rng) (p : Params) (parents : List Chromosome)
    (s : Nat) : List Chromosome × Nat :=
  mutateRandomParent R p parents p.mu p.lambda 1 s

/-- The per-node weight vectors of a chromosome. -/

def nodesWeights (c : Chromosome) : List (List ℚ) :=
  c.nodes.map (fun n => n.weights)

/-- Mirror of the C idiom `(int)roundf(x)` for the nonnegative arguments
`numGenes * mutationRate` arising in `pointMutation`: round half away
from zero, i.e. `⌊x + 1/2⌋` for `x ≥ 0`. -/

def roundfTrunc (q : ℚ) : Int := ⌊q + 1 / 2⌋

/-- Total structural gene count of `pointMutation`
(src/cgpdelib.c lines 3483-3488): function, input and output genes. -/

def numPointGenes (p : Params) : Nat :=
  p.numNodes + p.numNodes * p.arity + p.numOutputs

/-- Gene-redraw count of `pointMutation` (src/cgpdelib.c line 3491). -/

def numGenesToMutate (p : Params) : Nat :=
  (roundfTrunc ((numPointGenes p : ℚ) * p.mutationRate)).toNat

/-- One iteration of the `pointMutation` loop (src/cgpdelib.c lines
3494-3521): draw one gene slot uniformly over all structural genes and
redraw it; weight genes are not part of the gene space.  Note the C code
computes the input-gene node index with `chromo->arity`. -/

def pointMutationStep (R : Rng) (p : Params) (cs : Chromosome × Nat) :
    Chromosome × Nat :=
  let c := cs.1
  let numFunctionGenes := p.numNodes
  let numInputGenes := p.numNodes * p.arity
  let r := randInt R (numPointGenes p) cs.2
  if r.1 < numFunctionGenes then
    let f := getRandomFunction R c.funcs.length r.2
    (setNodeFunctionGene c r.1 f.1, f.2)
  else if r.1 < numFunctionGenes + numInputGenes then
    let nodeIndex := (r.1 - numFunctionGenes) / c.arity
    let nodeInputIndex := (r.1 - numFunctionGenes) % c.arity
    let inp := getRandomNodeInput R c.numInputs c.numNodes nodeIndex
      p.recurrentConnectionProbability r.2
    (setNodeInputGene c nodeIndex nodeInputIndex inp.1, inp.2)
  else
    let nodeIndex := r.1 - numFunctionGenes - numInputGenes
    let o := getRandomChromosomeOutput R c.numInputs c.numNodes
      p.shortcutConnections r.2
    (setOutputGene c nodeIndex o.1, o.2)

/-- Mirror of `pointMutation` (src/cgpdelib.c lines 3471-3522): exactly
`numGenesToMutate` iterations of the single-gene redraw. -/

def pointMutation (R : Rng) (p : Params) (c : Chromosome) (s : Nat) :
    Chromosome × Nat :=
  (List.range (numGenesToMutate p)).foldl (fun cs _ => pointMutationStep R p cs) (c, s)

/-- The sequence of gene slots drawn by `pointMutation`'s loop: iteration
by iteration, the value `geneToMutate = randInt(numGenes, seed)` of
src/cgpdelib.c line 3497.  The same iterations are replayed, so the list
is a projection of the `pointMutation` run. -/

def pointMutationDrawsGo (R : Rng) (p : Params) : Nat → Chromosome × Nat → List Nat
  | 0, _ => []
  | k + 1, cs =>
    (randInt R (numPointGenes p) cs.2).1
      :: pointMutationDrawsGo R p k (pointMutationStep R p cs)

/-- The gene slots drawn by one `pointMutation` call. -/

def pointMutationDraws (R : Rng) (p : Params) (c : Chromosome) (s : Nat) :
    List Nat :=
  pointMutationDrawsGo R p (numGenesToMutate p) (c, s)

/-- A DE population member: the flattened weight vector together with the
cached training fitness of its chromosome clone.  During `runDE` the
clone's topology is frozen and its weights always mirror the vector
(resynchronised by `transferWeightsVectorToChromo` before each
evaluation), so the pair captures the whole evolving state. -/

structure DEIndividual where
  weightsVector : List ℚ
  fitness : ℚ
deriving DecidableEq, Inhabited

/-- One of the three donor-selection rejection loops of `runDE`
(src/cgpdelib.c lines 4429-4445): redraw `randInt(NP)` while the value
collides with the forbidden indices. -/

def drawAvoid (R : Rng) (NP : Nat) (bad : List Nat) : Nat → Nat → Nat × Nat
  | 0, s => randInt R NP s
  | fuel + 1, s =>
    let r := randInt R NP s
    if r.1 ∈ bad then drawAvoid R NP bad fuel r.2 else r

/-- The donor indices `r1, r2, r3` and the forced coordinate `jr` drawn
for one DE target (src/cgpdelib.c lines 4429-4448). -/

def deDonorsJr (R : Rng) (NP numWeights : Nat) (i : Nat) (s : Nat) :
    (Nat × Nat × Nat × Nat) × Nat :=
  let r1 := drawAvoid R NP [i] rejectionFuel s
  let r2 := drawAvoid R NP [i, r1.1] rejectionFuel r1.2
  let r3 := drawAvoid R NP [i, r1.1, r2.1] rejectionFuel r2.2
  let jr := randInt R numWeights r3.2
  ((r1.1, r2.1, r3.1, jr.1), jr.2)

/-- The trial-vector construction of `runDE` (src/cgpdelib.c lines
4451-4463): coordinate `j` takes the donor combination
`w3[j] + F*(w1[j] - w2[j])` when `rand < CR` or `j == jr`, and the
target's own coordinate otherwise. -/

def deTrial (R : Rng) (CR F : ℚ) (wi w1 w2 w3 : List ℚ) (jr numWeights : Nat)
    (s : Nat) : List ℚ × Nat :=
  (List.range numWeights).foldl
    (fun acc j =>
      let rj := randDecimal R acc.2
      if rj.1 < CR ∨ j = jr then
        (acc.1 ++ [w3.getD j 0 + F * (w1.getD j 0 - w2.getD j 0)], rj.2)
      else (acc.1 ++ [wi.getD j 0], rj.2))
    ([], s)

/-- The full trial vector built for target `i` in one `runDE` inner
iteration: draw donors and `jr`, then run the crossover loop. -/

def deTargetTrial (R : Rng) (CR F : ℚ) (NP numWeights : Nat)
    (pop : List DEIndividual) (i : Nat) (s : Nat) : List ℚ × Nat :=
  let d := deDonorsJr R NP numWeights i s
  deTrial R CR F (pop.getD i default).weightsVector
    (pop.getD d.1.1 default).weightsVector
    (pop.getD d.1.2.1 default).weightsVector
    (pop.getD d.1.2.2.1 default).weightsVector
    d.1.2.2.2 numWeights d.2

/-- One target iteration of `runDE` (src/cgpdelib.c lines 4426-4479):
build the trial, evaluate it on the training data (abstracted by
`fitEval`, a function of the weight vector since the topology and data
are frozen), and greedily replace the target when `fit_u <= fit_s`. -/

def deTargetStep (R : Rng) (fitEval : List ℚ → ℚ) (CR F : ℚ)
    (NP numWeights : Nat) (pop : List DEIndividual) (i : Nat) (s : Nat) :
    List DEIndividual × Nat :=
  let u := deTargetTrial R CR F NP numWeights pop i s
  let fit_u := fitEval u.1
  let fit_s := (pop.getD i default).fitness
  if fit_u ≤ fit_s then (pop.set i ⟨u.1, fit_u⟩, u.2) else (pop, u.2)

/-- One full sweep of `runDE` over all `NP` targets
(src/cgpdelib.c lines 4426-4479). -/

def deSweep (R : Rng) (fitEval : List ℚ → ℚ) (CR F : ℚ)
    (NP numWeights : Nat) (pop : List DEIndividual) (s : Nat) :
    List DEIndividual × Nat :=
  (List.range NP).foldl
    (fun acc i => deTargetStep R fitEval CR F NP numWeights acc.1 i acc.2)
    (pop, s)

/-- The iteration loop of `runDE` (src/cgpdelib.c lines 4423-4480):
`maxIter` sweeps over the population. -/

def runDELoop (R : Rng) (fitEval : List ℚ → ℚ) (CR F : ℚ)
    (NP numWeights maxIter : Nat) (pop : List DEIndividual) (s : Nat) :
    List DEIndividual × Nat :=
  (List.range maxIter).foldl
    (fun acc _ => deSweep R fitEval CR F NP numWeights acc.1 acc.2)
    (pop, s)

/-- Deterministic PRNG model used in counterexamples and witnesses: the
draw equals the state, and the state increments. -/

def seqRng : Rng := fun s => (s, s + 1)

/-- Transfer function used in fixtures: ignores its arguments, returns 1. -/

def fConstOne : NodeFun := fun _ _ _ g => (.fin 1, g)

/-- DE population of four identical individuals with weight vector `[0]`. -/

def popDEEx : List DEIndividual := List.replicate 4 ⟨[0], 5⟩

/-- Single-node parent chromosome with weight 0 for the reproduction
counterexample.  Its function set has a single entry, so the
function-gene guard `numFunctions > 1` always fails. -/

def cWEx : Chromosome where
  numInputs := 1
  numNodes := 1
  numOutputs := 1
  arity := 1
  nodes := [{ function := 0, inputs := [0], weights := [0], output := .fin 0,
              active := true, actArity := 1 }]
  outputNodes := [1]
  activeNodes := [0]
  outputValues := [.fin 0]
  fitness := 0
  fitnessValidation := 0
  funcs := [fConstOne]
  maxNumInputs := [-1]

/-- PRNG model driven by a script of draw values: draw `l.getD s 0` at
state `s`, then increment the state. -/

def listRng (l : List Nat) : Rng := fun s => (l.getD s 0, s + 1)

/-- Parameters for the reproduction counterexample: mutation rate `1/2`
and no output genes, so the run draws no `randInt` except the parent
selection. -/

def pC3 : Params := { pEx with mutationRate := 1/2, numOutputs := 0 }

/-- Parameters for the point-mutation counterexample: 3 structural genes
and rate `2/3`, so `round(3 * 2/3) = 2` slots are drawn. -/

def pC6 : Params := { pEx with mutationRate := 2/3 }

/-- Chromosome for the point-mutation counterexample: its function set has
two entries so function-gene redraws are meaningful. -/

def cC6 : Chromosome := { cWEx with funcs := [fConstOne, fConstNan] }

/-- Reachability of an address from the output genes, following the input
genes of reached nodes restricted to their actual arity — the search
relation implemented by `recursivelySetActiveNodes`. -/

inductive ReachAddr (c : Chromosome) : Nat → Prop where
  | output (a : Nat) : a ∈ c.outputNodes → c.numInputs ≤ a → ReachAddr c a
  | child (a b : Nat) : ReachAddr c a → c.numInputs ≤ a →
      b ∈ childAddrs c (a - c.numInputs) → ReachAddr c b

/-- Structural well-formedness of a chromosome as established by
`initialiseChromosome`: the node list has the declared length and every
input and output gene addresses the shared `[0, numInputs + numNodes)`
space. -/

def WFChromosome (c : Chromosome) : Prop :=
  c.nodes.length = c.numNodes
  ∧ (∀ nd ∈ c.nodes, ∀ a ∈ nd.inputs, a < c.numInputs + c.numNodes)
  ∧ (∀ o ∈ c.outputNodes, o < c.numInputs + c.numNodes)

instance (c : Chromosome) : Decidable (WFChromosome c) := by
  unfold WFChromosome
  infer_instance

/-- Relative closure of a visited set: every node marked in `st2` but not
in `st1` already has all of its node-addressed children marked in `st2`. -/

def NewlyClosed (c : Chromosome) (st1 st2 : List Nat) : Prop :=
  ∀ m, m ∈ st2 → m ∉ st1 →
    ∀ b ∈ childAddrs c m, c.numInputs ≤ b → (b - c.numInputs) ∈ st2

/-- Mirror of the `_randFloat` node function (src/cgpdelib.c lines
5035-5044): `rand() / RAND_MAX * 2 - 1`.  It calls the **global** libc
`rand()`, not the caller-supplied `rand_r` seed; the global generator is
modelled by the threaded state and a step function `Rg`. -/

def mkRandFloat (Rg : Rng) : NodeFun :=
  fun _ _ _ g =>
    let r := Rg g
    (.fin (((r.1 : ℚ) / (RAND_MAX : ℚ)) * 2 - 1), r.2)

/-- Chromosome with one active node computing the `rand` catalog function:
non-recurrent (its single node reads no node output) and feed-forward. -/

def cRandEx : Chromosome where
  numInputs := 1
  numNodes := 1
  numOutputs := 1
  arity := 1
  nodes := [{ function := 0, inputs := [], weights := [], output := .fin 0,
              active := true, actArity := 0 }]
  outputNodes := [1]
  activeNodes := [0]
  outputValues := [.fin 0]
  fitness := 0
  fitnessValidation := 0
  funcs := [mkRandFloat seqRng]
  maxNumInputs := [0]

/-- Purity of a function table: every transfer function's value is
independent of the global `rand()` state, and the state is left
unchanged — true of the whole built-in catalog except `_randFloat`. -/

def PureFuncs (c : Chromosome) : Prop :=
  ∀ fn ∈ c.funcs, ∀ (n : Nat) (a : List DVal) (w : List ℚ) (g g' : Nat),
    (fn n a w g).2 = g ∧ (fn n a w g).1 = (fn n a w g').1

/-- The operand addresses a node reads during execution: its input genes
restricted to the stored actual arity. -/

def usedInputs (c : Chromosome) (n : Nat) : List Nat :=
  (c.nodes.getD n default).inputs.take (c.nodes.getD n default).actArity.toNat

/-- Feed-forward check along the active list: processing the remaining
nodes `ls` after the prefix `p`, every operand of the next node is either
a sample input or a node already listed earlier.  For a non-recurrent
chromosome the ascending active list produced by
`setChromosomeActiveNodes` satisfies `FFOkGo c [] c.activeNodes`. -/

def FFOkGo (c : Chromosome) : List Nat → List Nat → Bool
  | _, [] => true
  | p, idx :: rest =>
    ((usedInputs c idx).all (fun a =>
      decide (a < c.numInputs) || decide ((a - c.numInputs) ∈ p)))
    && FFOkGo c (p ++ [idx]) rest

/-- Equality of every node field the executor reads (all but the cached
output). -/

def sameNodeShape (n1 n2 : Node) : Prop :=
  n1.function = n2.function ∧ n1.inputs = n2.inputs ∧ n1.weights = n2.weights
  ∧ n1.actArity = n2.actArity ∧ n1.active = n2.active

lemma sanitizeNodeOutput_fin (v : DVal) : ∃ q : ℚ, sanitizeNodeOutput v = .fin q := by
  cases v <;> simp [sanitizeNodeOutput, disnan, disinf, dgtZero]

lemma executeNodeStep_length (inputs : List DVal) (cg : Chromosome × Nat) (j : Nat) :
    ((executeNodeStep inputs cg j).1).nodes.length = cg.1.nodes.length := by
  simp [executeNodeStep]

lemma foldl_executeNodeStep_length (inputs : List DVal) (L : List Nat)
    (cg : Chromosome × Nat) :
    ((L.foldl (executeNodeStep inputs) cg).1).nodes.length = cg.1.nodes.length := by
  induction L generalizing cg with
  | nil => rfl
  | cons a as ih => rw [List.foldl_cons, ih, executeNodeStep_length]

lemma executeNodeStep_output_cases (inputs : List DVal) (cg : Chromosome × Nat)
    (j idx : Nat) :
    (((executeNodeStep inputs cg j).1).nodes.getD idx default).output
      = ((cg.1.nodes.getD idx default).output)
    ∨ ∃ q : ℚ, (((executeNodeStep inputs cg j).1).nodes.getD idx default).output = .fin q := by
  by_cases hj : j = idx
  · subst hj
    by_cases hlt : j < cg.1.nodes.length
    · right
      simp only [executeNodeStep, List.getD_eq_getElem?_getD, List.getElem?_set,
        if_pos rfl, if_pos hlt, if_true, Option.getD_some]
      exact sanitizeNodeOutput_fin _
    · left
      have hnone : cg.1.nodes[j]? = none :=
        List.getElem?_eq_none (Nat.le_of_not_lt hlt)
      simp only [executeNodeStep, List.getD_eq_getElem?_getD, List.getElem?_set,
        if_pos rfl, if_neg hlt, if_true, hnone]
  · left
    simp only [executeNodeStep, List.getD_eq_getElem?_getD, List.getElem?_set, if_neg hj]

lemma foldl_executeNodeStep_preserves_fin (inputs : List DVal) (L : List Nat)
    (cg : Chromosome × Nat) (idx : Nat)
    (h : ∃ q : ℚ, ((cg.1.nodes.getD idx default).output) = .fin q) :
    ∃ q : ℚ, (((L.foldl (executeNodeStep inputs) cg).1).nodes.getD idx default).output = .fin q := by
  induction L generalizing cg with
  | nil => exact h
  | cons a as ih =>
    rw [List.foldl_cons]
    apply ih
    rcases executeNodeStep_output_cases inputs cg a idx with hsame | hfin
    · rw [hsame]; exact h
    · exact hfin

lemma foldl_executeNodeStep_active_fin (inputs : List DVal) (L : List Nat)
    (cg : Chromosome × Nat) (idx : Nat)
    (hmem : idx ∈ L) (hlt : idx < cg.1.nodes.length) :
    ∃ q : ℚ, (((L.foldl (executeNodeStep inputs) cg).1).nodes.getD idx default).output = .fin q := by
  induction L generalizing cg with
  | nil => cases hmem
  | cons a as ih =>
    rw [List.foldl_cons]
    by_cases has : idx ∈ as
    · exact ih _ has (by rw [executeNodeStep_length]; exact hlt)
    · have ha : a = idx := by
        rcases List.mem_cons.mp hmem with h | h
        · exact h.symm
        · exact absurd h has
      subst ha
      apply foldl_executeNodeStep_preserves_fin
      simp only [executeNodeStep, List.getD_eq_getElem?_getD, List.getElem?_set,
        if_pos rfl, if_pos hlt, if_true, Option.getD_some]
      exact sanitizeNodeOutput_fin _

/-- C1.  For every chromosome and input vector, `executeChromosome`
sanitises every active node's computed value: NaN is stored as exactly 0,
+infinity is clamped to DBL_MAX, -infinity to DBL_MIN, and consequently
the cached output of every active node after execution is a finite value,
never NaN or a true infinity. -/
theorem executeChromosome_sanitizes (c : Chromosome) (inputs : List DVal)
    (g : Nat) (idx : Nat) (hmem : idx ∈ c.activeNodes)
    (hlt : idx < c.nodes.length) :
    sanitizeNodeOutput .nan = .fin 0 ∧
    sanitizeNodeOutput .posInf = .fin DBL_MAX ∧
    sanitizeNodeOutput .negInf = .fin DBL_MIN ∧
    ∃ q : ℚ, (((executeChromosome c inputs g).1).nodes.getD idx default).output = .fin q := by
  refine ⟨rfl, rfl, rfl, ?_⟩
  have h := foldl_executeNodeStep_active_fin inputs c.activeNodes (c, g) idx hmem hlt
  simpa [executeChromosome] using h

theorem executeChromosome_sanitizes_witness :
    (0 ∈ cNanEx.activeNodes ∧ 0 < cNanEx.nodes.length) ∧
    ∃ q : ℚ, (((executeChromosome cNanEx [.fin 3] 0).1).nodes.getD 0 default).output = .fin q :=
  ⟨⟨by decide, by decide⟩,
    (executeChromosome_sanitizes cNanEx [.fin 3] 0 0 (by decide) (by decide)).2.2.2⟩

/-- C10.  The bounds guard of `getChromosomeOutput` terminates the program
exactly when the index is negative or strictly greater than `numOutputs`,
and likewise `getChromosomeNodeValue` with `numNodes`; a call with index
exactly `numOutputs` (resp. `numNodes`) passes the guard and reads one
element past the end of the underlying array (modelled by a `none` read). -/
theorem accessor_guard_off_by_one (c : Chromosome) (i : Int)
    (hout : c.outputValues.length = c.numOutputs)
    (hnodes : c.nodes.length = c.numNodes) :
    (getChromosomeOutput c i = .error () ↔ (i < 0 ∨ i > (c.numOutputs : Int))) ∧
    (getChromosomeNodeValue c i = .error () ↔ (i < 0 ∨ i > (c.numNodes : Int))) ∧
    getChromosomeOutput c (c.numOutputs : Int) = .ok none ∧
    getChromosomeNodeValue c (c.numNodes : Int) = .ok none := by
  refine ⟨?_, ?_, ?_, ?_⟩
  · constructor
    · intro h
      by_contra hcon
      simp only [getChromosomeOutput, if_neg hcon] at h
      exact Except.noConfusion h
    · intro h
      simp [getChromosomeOutput, if_pos h]
  · constructor
    · intro h
      by_contra hcon
      simp only [getChromosomeNodeValue, if_neg hcon] at h
      exact Except.noConfusion h
    · intro h
      simp [getChromosomeNodeValue, if_pos h]
  · have hguard : ¬ (((c.numOutputs : Int) < 0) ∨ ((c.numOutputs : Int) > (c.numOutputs : Int))) := by
      push_neg
      exact ⟨Int.ofNat_nonneg _, le_refl _⟩
    simp only [getChromosomeOutput, if_neg hguard]
    have : c.outputValues[(c.numOutputs : Int).toNat]? = none := by
      rw [List.getElem?_eq_none_iff]
      simp [hout]
    rw [this]
  · have hguard : ¬ (((c.numNodes : Int) < 0) ∨ ((c.numNodes : Int) > (c.numNodes : Int))) := by
      push_neg
      exact ⟨Int.ofNat_nonneg _, le_refl _⟩
    simp only [getChromosomeNodeValue, if_neg hguard]
    have : c.nodes[(c.numNodes : Int).toNat]? = none := by
      rw [List.getElem?_eq_none_iff]
      simp [hnodes]
    rw [this]
    rfl

theorem accessor_guard_off_by_one_witness :
    (cNanEx.outputValues.length = cNanEx.numOutputs ∧
     cNanEx.nodes.length = cNanEx.numNodes) ∧
    getChromosomeOutput cNanEx (cNanEx.numOutputs : Int) = .ok none :=
  ⟨⟨by decide, by decide⟩,
    (accessor_guard_off_by_one cNanEx 0 (by decide) (by decide)).2.2.1⟩

/-- C9 counterexample.  The claim fails on two of the three cited setters:
`setCR 2` terminates the program (the claim says no setter terminates),
and `setNumThreads 0` stores the invalid value 0 in place of the previous
value 1 (the claim says the previous value is retained). -/
theorem setters_counterexample :
    setCR pEx 2 = .error () ∧
    setNumThreads pEx 0 = .ok ({ pEx with numThreads := 0 }, true) ∧
    pEx.numThreads = 1 := by
  refine ⟨?_, ?_, rfl⟩
  · have h : (2:ℚ) < 0 ∨ (2:ℚ) > 1 := Or.inr (by norm_num)
    simp [setCR, if_pos h]
  · rfl

/-- C9 (amended).  `setMutationRate` warns on an out-of-range value and
retains the prior value without terminating; `setNumThreads` warns on a
non-positive value but stores it anyway, without terminating; `setCR`
terminates the program on any value outside `[0,1]`. -/
theorem setter_out_of_range_behavior (p : Params) :
    (∀ r : ℚ, (r < 0 ∨ 1 < r) → setMutationRate p r = .ok (p, true)) ∧
    (∀ n : Int, n ≤ 0 → setNumThreads p n = .ok ({ p with numThreads := n }, true)) ∧
    (∀ cr : ℚ, (cr < 0 ∨ 1 < cr) → setCR p cr = .error ()) := by
  refine ⟨?_, ?_, ?_⟩
  · intro r hr
    have h : ¬ (0 ≤ r ∧ r ≤ 1) := by
      rcases hr with h | h
      · exact fun hc => absurd hc.1 (not_le.mpr h)
      · exact fun hc => absurd hc.2 (not_le.mpr h)
    simp [setMutationRate, if_neg h]
  · intro n hn
    simp [setNumThreads, decide_eq_true_eq, hn]
  · intro cr hcr
    have h : cr < 0 ∨ cr > 1 := hcr
    simp [setCR, if_pos h]

theorem setter_out_of_range_behavior_witness :
    (((3:ℚ) < 0 ∨ 1 < (3:ℚ)) ∧ setMutationRate pEx 3 = .ok (pEx, true)) ∧
    (((-2:Int) ≤ 0) ∧ setNumThreads pEx (-2) = .ok ({ pEx with numThreads := -2 }, true)) ∧
    (((3:ℚ) < 0 ∨ 1 < (3:ℚ)) ∧ setCR pEx 3 = .error ()) :=
  ⟨⟨Or.inr (by norm_num), (setter_out_of_range_behavior pEx).1 3 (Or.inr (by norm_num))⟩,
   ⟨by norm_num, (setter_out_of_range_behavior pEx).2.1 (-2) (by norm_num)⟩,
   ⟨Or.inr (by norm_num), (setter_out_of_range_behavior pEx).2.2 3 (Or.inr (by norm_num))⟩⟩

/-- C7.  The sort behind `selectFittest` is not stable, although the source
comments (src/cgpdelib.c lines 2421-2423 and 4734-4742) claim it is: on the
candidate pool `[A, B, C]` with fitness `[2, 2, 1]` (tags 10, 20, 30), the
exchange sort swaps `A` to the back, producing tags `[30, 20, 10]` — the two
equal-fitness candidates `A` and `B` have exchanged their relative order, so
with children placed before parents an equal-fitness tie can be resolved in
favor of the later (parent) entry, contradicting the claim. -/
theorem sortChromosomeArray_not_stable :
    (sortChromosomeArray [cTagA, cTagB, cTagC]).map
        (fun c => (c.fitness, c.fitnessValidation)) = [(1, 30), (2, 20), (2, 10)] ∧
    (selectFittest [cTagA, cTagB, cTagC] 2).map (fun c => c.fitnessValidation)
      = [30, 20] := by
  constructor
  · rfl
  · rfl

lemma getD_set_eq_ite {α : Type} [Inhabited α] (l : List α) (i k : Nat) (x : α) :
    ((l.set i x).getD k default)
      = if i = k ∧ i < l.length then x else l.getD k default := by
  rw [List.getD_eq_getElem?_getD, List.getD_eq_getElem?_getD, List.getElem?_set]
  by_cases h1 : i = k
  · subst h1
    by_cases h2 : i < l.length
    · simp [h2]
    · simp [h2, List.getElem?_eq_none (Nat.le_of_not_lt h2)]
  · simp [h1]

lemma deTargetStep_fitness_le (R : Rng) (fitEval : List ℚ → ℚ) (CR F : ℚ)
    (NP numWeights : Nat) (pop : List DEIndividual) (i s k : Nat) :
    (((deTargetStep R fitEval CR F NP numWeights pop i s).1).getD k default).fitness
      ≤ ((pop.getD k default).fitness) := by
  simp only [deTargetStep]
  split
  · rename_i h
    rw [getD_set_eq_ite]
    split
    · rename_i hik
      calc fitEval (deTargetTrial R CR F NP numWeights pop i s).1
          ≤ (pop.getD i default).fitness := h
        _ = (pop.getD k default).fitness := by rw [hik.1]
    · exact le_refl _
  · exact le_refl _

lemma foldl_deTargetStep_fitness_le (R : Rng) (fitEval : List ℚ → ℚ)
    (CR F : ℚ) (NP numWeights : Nat) (l : List Nat)
    (pop : List DEIndividual) (s k : Nat) :
    (((l.foldl
        (fun acc i => deTargetStep R fitEval CR F NP numWeights acc.1 i acc.2)
        (pop, s)).1).getD k default).fitness
      ≤ ((pop.getD k default).fitness) := by
  induction l generalizing pop s with
  | nil => exact le_refl _
  | cons a as ih =>
    rw [List.foldl_cons]
    exact le_trans (ih _ _) (deTargetStep_fitness_le R fitEval CR F NP numWeights pop a s k)

lemma deSweep_fitness_le (R : Rng) (fitEval : List ℚ → ℚ) (CR F : ℚ)
    (NP numWeights : Nat) (pop : List DEIndividual) (s k : Nat) :
    (((deSweep R fitEval CR F NP numWeights pop s).1).getD k default).fitness
      ≤ ((pop.getD k default).fitness) :=
  foldl_deTargetStep_fitness_le R fitEval CR F NP numWeights (List.range NP) pop s k

/-- C4.  In every `runDE` sweep the stored training fitness of each
individual is monotone non-worsening: the target is replaced by the trial
exactly when the trial's fitness is `<=` the target's (so ties favor the
trial), and consequently after any number of iterations no individual's
fitness exceeds its value before the loop. -/
theorem runDE_monotone_and_ties (R : Rng) (fitEval : List ℚ → ℚ) (CR F : ℚ)
    (NP numWeights : Nat) :
    (∀ (maxIter : Nat) (pop : List DEIndividual) (s k : Nat),
      (((runDELoop R fitEval CR F NP numWeights maxIter pop s).1).getD k default).fitness
        ≤ ((pop.getD k default).fitness))
    ∧ (∀ (pop : List DEIndividual) (i s : Nat),
        fitEval (deTargetTrial R CR F NP numWeights pop i s).1
            ≤ (pop.getD i default).fitness →
        (deTargetStep R fitEval CR F NP numWeights pop i s).1
          = pop.set i
              ⟨(deTargetTrial R CR F NP numWeights pop i s).1,
               fitEval (deTargetTrial R CR F NP numWeights pop i s).1⟩) := by
  constructor
  · intro maxIter pop s k
    unfold runDELoop
    induction (List.range maxIter) generalizing pop s with
    | nil => exact le_refl _
    | cons a as ih =>
      rw [List.foldl_cons]
      exact le_trans (ih _ _) (deSweep_fitness_le R fitEval CR F NP numWeights pop s k)
  · intro pop i s h
    simp only [deTargetStep, if_pos h]

theorem runDE_monotone_and_ties_witness :
    ((fun _ : List ℚ => (0:ℚ)) (deTargetTrial seqRng 0 (1/2) 4 1 popDEEx 0 0).1
        ≤ (popDEEx.getD 0 default).fitness)
    ∧ (deTargetStep seqRng (fun _ : List ℚ => (0:ℚ)) 0 (1/2) 4 1 popDEEx 0 0).1
        = popDEEx.set 0
            ⟨(deTargetTrial seqRng 0 (1/2) 4 1 popDEEx 0 0).1,
             (fun _ : List ℚ => (0:ℚ)) (deTargetTrial seqRng 0 (1/2) 4 1 popDEEx 0 0).1⟩ :=
  ⟨by norm_num [popDEEx],
   (runDE_monotone_and_ties seqRng (fun _ : List ℚ => (0:ℚ)) 0 (1/2) 4 1).2
     popDEEx 0 0 (by norm_num [popDEEx])⟩

lemma randDecimal_nonneg (R : Rng) (s : Nat) : 0 ≤ (randDecimal R s).1 := by
  unfold randDecimal
  exact div_nonneg (Nat.cast_nonneg _) (by norm_num)

lemma deTrial_succ (R : Rng) (CR F : ℚ) (wi w1 w2 w3 : List ℚ) (jr n s : Nat) :
    deTrial R CR F wi w1 w2 w3 jr (n + 1) s
      = ((deTrial R CR F wi w1 w2 w3 jr n s).1 ++
          [if (randDecimal R (deTrial R CR F wi w1 w2 w3 jr n s).2).1 < CR ∨ n = jr
           then w3.getD n 0 + F * (w1.getD n 0 - w2.getD n 0)
           else wi.getD n 0],
         (randDecimal R (deTrial R CR F wi w1 w2 w3 jr n s).2).2) := by
  unfold deTrial
  rw [List.range_succ, List.foldl_append, List.foldl_cons, List.foldl_nil]
  dsimp only
  by_cases h : (randDecimal R (((List.range n).foldl
      (fun acc j =>
        let rj := randDecimal R acc.2
        if rj.1 < CR ∨ j = jr then
          (acc.1 ++ [w3.getD j 0 + F * (w1.getD j 0 - w2.getD j 0)], rj.2)
        else (acc.1 ++ [wi.getD j 0], rj.2))
      ([], s)).2)).1 < CR ∨ n = jr
  · simp only [if_pos h]
  · simp only [if_neg h]

lemma deTrial_length (R : Rng) (CR F : ℚ) (wi w1 w2 w3 : List ℚ)
    (jr : Nat) : ∀ (n s : Nat),
    (deTrial R CR F wi w1 w2 w3 jr n s).1.length = n := by
  intro n
  induction n with
  | zero => intro s; rfl
  | succ m ih =>
    intro s
    rw [deTrial_succ]
    simp [ih s]

lemma deTrial_getD_forced (R : Rng) (CR F : ℚ) (wi w1 w2 w3 : List ℚ)
    (jr : Nat) : ∀ (n s : Nat), jr < n →
    (deTrial R CR F wi w1 w2 w3 jr n s).1.getD jr 0
      = w3.getD jr 0 + F * (w1.getD jr 0 - w2.getD jr 0) := by
  intro n
  induction n with
  | zero => intro s h; cases h
  | succ m ih =>
    intro s h
    rw [deTrial_succ]
    rcases Nat.lt_succ_iff_lt_or_eq.mp h with hlt | heq
    · rw [List.getD_append _ _ _ _ (by rw [deTrial_length]; exact hlt)]
      exact ih s hlt
    · subst heq
      have hidx : (deTrial R CR F wi w1 w2 w3 jr jr s).1.length = jr :=
        deTrial_length R CR F wi w1 w2 w3 jr jr s
      rw [if_pos (Or.inr rfl)]
      rw [List.getD_eq_getElem?_getD, List.getElem?_append_right (le_of_eq hidx),
        hidx, Nat.sub_self]
      rfl

lemma deTrial_cr_zero_passthrough (R : Rng) (F : ℚ) (wi w1 w2 w3 : List ℚ)
    (jr : Nat) : ∀ (n s j : Nat), j < n → j ≠ jr →
    (deTrial R 0 F wi w1 w2 w3 jr n s).1.getD j 0 = wi.getD j 0 := by
  intro n
  induction n with
  | zero => intro s j h _; cases h
  | succ m ih =>
    intro s j h hne
    rw [deTrial_succ]
    rcases Nat.lt_succ_iff_lt_or_eq.mp h with hlt | heq
    · rw [List.getD_append _ _ _ _ (by rw [deTrial_length]; exact hlt)]
      exact ih s j hlt hne
    · subst heq
      have hcond : ¬ ((randDecimal R (deTrial R 0 F wi w1 w2 w3 jr j s).2).1 < 0 ∨ j = jr) := by
        rintro (hlt0 | hjr)
        · exact absurd hlt0 (not_lt.mpr (randDecimal_nonneg R _))
        · exact hne hjr
      rw [if_neg hcond]
      have hidx : (deTrial R 0 F wi w1 w2 w3 jr j s).1.length = j :=
        deTrial_length R 0 F wi w1 w2 w3 jr j s
      rw [List.getD_eq_getElem?_getD, List.getElem?_append_right (le_of_eq hidx),
        hidx, Nat.sub_self]
      rfl

/-- C5 (amended).  In the `runDE` trial construction, coordinate `jr` is
always computed from the donor combination `w3 + F*(w1 - w2)` regardless
of the crossover rate, and with `CR = 0` every other coordinate is copied
from the target; the trial vector therefore differs from the target
positionally at `jr`, but not necessarily in value (see the
counterexample: with identical population vectors the trial equals the
target). -/
theorem deTrial_forced_coordinate (R : Rng) (CR F : ℚ)
    (wi w1 w2 w3 : List ℚ) (jr numWeights s : Nat) :
    (jr < numWeights →
      (deTrial R CR F wi w1 w2 w3 jr numWeights s).1.getD jr 0
        = w3.getD jr 0 + F * (w1.getD jr 0 - w2.getD jr 0))
    ∧ (deTrial R CR F wi w1 w2 w3 jr numWeights s).1.length = numWeights
    ∧ (∀ j < numWeights, j ≠ jr →
        (deTrial R 0 F wi w1 w2 w3 jr numWeights s).1.getD j 0 = wi.getD j 0) :=
  ⟨fun h => deTrial_getD_forced R CR F wi w1 w2 w3 jr numWeights s h,
   deTrial_length R CR F wi w1 w2 w3 jr numWeights s,
   fun j hj hne => deTrial_cr_zero_passthrough R F wi w1 w2 w3 jr numWeights s j hj hne⟩

theorem deTrial_forced_coordinate_witness :
    ((0:Nat) < 1 ∧
      (deTrial seqRng (1/2) 1 [5] [1] [2] [3] 0 1 0).1.getD 0 0
        = ([3]:List ℚ).getD 0 0 + 1 * (([1]:List ℚ).getD 0 0 - ([2]:List ℚ).getD 0 0))
    ∧ ((1:Nat) < 2 ∧ (1:Nat) ≠ 0 ∧
      (deTrial seqRng 0 1 [5, 6] [1, 1] [2, 2] [3, 3] 0 2 0).1.getD 1 0
        = ([5, 6]:List ℚ).getD 1 0) :=
  ⟨⟨by decide,
    (deTrial_forced_coordinate seqRng (1/2) 1 [5] [1] [2] [3] 0 1 0).1 (by decide)⟩,
   ⟨by decide, by decide,
    (deTrial_forced_coordinate seqRng 0 1 [5, 6] [1, 1] [2, 2] [3, 3] 0 2 0).2.2
      1 (by decide) (by decide)⟩⟩

/-- C5 counterexample.  On a population of four identical individuals
(weight vector `[0]`), target `i = 3`, `CR = 0`, `F = 1`, the trial vector
constructed by the `runDE` inner iteration is exactly the target's weight
vector: the forced coordinate takes the donor formula but its value
coincides, so the trial does not differ from the target in any
coordinate, contradicting the claim. -/
theorem deTargetTrial_can_equal_target :
    (deTargetTrial seqRng 0 1 4 1 popDEEx 3 0).1
      = (popDEEx.getD 3 default).weightsVector := by
  have hd : deDonorsJr seqRng 4 1 3 0 = ((0, 1, 2, 0), 4) := by decide
  have hp0 : (popDEEx.getD 0 default).weightsVector = [0] := by decide
  have hp1 : (popDEEx.getD 1 default).weightsVector = [0] := by decide
  have hp2 : (popDEEx.getD 2 default).weightsVector = [0] := by decide
  have hp3 : (popDEEx.getD 3 default).weightsVector = [0] := by decide
  simp only [deTargetTrial, hd, hp0, hp1, hp2, hp3]
  rw [show (1:Nat) = 0 + 1 from rfl, deTrial_succ]
  norm_num [deTrial]

lemma map_set_eq_self {α β : Type} [Inhabited α] (f : α → β) :
    ∀ (l : List α) (i : Nat) (x : α),
      f x = f (l.getD i default) → (l.set i x).map f = l.map f := by
  intro l
  induction l with
  | nil => intro i x _; rfl
  | cons a t ih =>
    intro i x h
    cases i with
    | zero =>
      simp only [List.getD_cons_zero] at h
      simp [List.set, h]
    | succ m =>
      simp only [List.getD_cons_succ] at h
      simp [List.set, ih m x h]

lemma nodesWeights_setNodeFunctionGene (c : Chromosome) (i f : Nat) :
    nodesWeights (setNodeFunctionGene c i f) = nodesWeights c :=
  map_set_eq_self _ c.nodes i _ rfl

lemma nodesWeights_setNodeInputGene (c : Chromosome) (i j v : Nat) :
    nodesWeights (setNodeInputGene c i j v) = nodesWeights c :=
  map_set_eq_self _ c.nodes i _ rfl

lemma nodesWeights_setOutputGene (c : Chromosome) (i v : Nat) :
    nodesWeights (setOutputGene c i v) = nodesWeights c := rfl

lemma nodesWeights_markNodesGo (c : Chromosome) (visited : List Nat) :
    ∀ (k : Nat) (l : List Node),
      (markNodesGo c visited k l).map (fun n => n.weights)
        = l.map (fun n => n.weights) := by
  intro k l
  induction l generalizing k with
  | nil => rfl
  | cons a t ih =>
    simp only [markNodesGo, List.map_cons, ih (k + 1)]
    by_cases h : k ∈ visited <;> simp [h]

lemma nodesWeights_setChromosomeActiveNodes (c : Chromosome) :
    nodesWeights (setChromosomeActiveNodes c) = nodesWeights c := by
  simp only [setChromosomeActiveNodes, nodesWeights]
  exact nodesWeights_markNodesGo c _ 0 c.nodes

lemma randInt_lt (R : Rng) (n s : Nat) (h : 0 < n) : (randInt R n s).1 < n := by
  unfold randInt
  rw [if_neg (Nat.pos_iff_ne_zero.mp h)]
  exact Nat.mod_lt _ h

lemma nodesWeights_pointMutationStep (R : Rng) (p : Params)
    (cs : Chromosome × Nat) :
    nodesWeights (pointMutationStep R p cs).1 = nodesWeights cs.1 := by
  simp only [pointMutationStep]
  split
  · exact nodesWeights_setNodeFunctionGene _ _ _
  · split
    · exact nodesWeights_setNodeInputGene _ _ _ _
    · exact nodesWeights_setOutputGene _ _ _

lemma pointMutationDrawsGo_length (R : Rng) (p : Params) :
    ∀ (k : Nat) (cs : Chromosome × Nat),
      (pointMutationDrawsGo R p k cs).length = k := by
  intro k
  induction k with
  | zero => intro cs; rfl
  | succ m ih =>
    intro cs
    simp only [pointMutationDrawsGo, List.length_cons, ih]

lemma pointMutationDrawsGo_lt (R : Rng) (p : Params) (hp : 0 < numPointGenes p) :
    ∀ (k : Nat) (cs : Chromosome × Nat),
      ∀ g ∈ pointMutationDrawsGo R p k cs, g < numPointGenes p := by
  intro k
  induction k with
  | zero => intro cs g hg; cases hg
  | succ m ih =>
    intro cs g hg
    rcases List.mem_cons.mp hg with h | h
    · subst h; exact randInt_lt R _ _ hp
    · exact ih _ g h

lemma numGenesToMutate_zero_of_no_genes (p : Params)
    (h : numPointGenes p = 0) : numGenesToMutate p = 0 := by
  unfold numGenesToMutate roundfTrunc
  rw [h]
  norm_num

/-- C6 (amended).  One call of `pointMutation` performs exactly
`round(G * rate)` gene redraws, each drawn uniformly over the `G`
structural gene slots (function, input and output genes) **with
replacement** — repeated slots are possible, so fewer than `round(G*rate)`
distinct slots may be redrawn; no weight gene is ever changed. -/
theorem pointMutation_draw_count_and_weights (R : Rng) (p : Params)
    (c : Chromosome) (s : Nat) :
    (pointMutationDraws R p c s).length = numGenesToMutate p
    ∧ (∀ g ∈ pointMutationDraws R p c s, g < numPointGenes p)
    ∧ nodesWeights (pointMutation R p c s).1 = nodesWeights c := by
  refine ⟨pointMutationDrawsGo_length R p _ _, ?_, ?_⟩
  · rcases Nat.eq_zero_or_pos (numPointGenes p) with h0 | hpos
    · intro g hg
      unfold pointMutationDraws at hg
      rw [numGenesToMutate_zero_of_no_genes p h0] at hg
      cases hg
    · exact pointMutationDrawsGo_lt R p hpos _ _
  · unfold pointMutation
    induction (List.range (numGenesToMutate p)) generalizing c s with
    | nil => rfl
    | cons a as ih =>
      rw [List.foldl_cons]
      rw [show ((c, s) : Chromosome × Nat) = ((c, s).1, (c, s).2) from rfl]
      calc nodesWeights ((as.foldl (fun cs _ => pointMutationStep R p cs)
              (pointMutationStep R p (c, s))).1)
          = nodesWeights (pointMutationStep R p (c, s)).1 := by
            have := ih (pointMutationStep R p (c, s)).1 (pointMutationStep R p (c, s)).2
            simpa using this
        _ = nodesWeights c := nodesWeights_pointMutationStep R p (c, s)

/-- C6 counterexample.  With 3 structural genes and rate `2/3`, the loop
performs `round(3 * 2/3) = 2` redraws, but under the scripted PRNG both
draws hit gene slot 0: the redrawn slots are not distinct, contradicting
the claim that exactly `round(G * rate)` **distinct** slots are redrawn. -/
theorem pointMutation_slots_not_distinct :
    pointMutationDraws (listRng [0, 1, 0, 1]) pC6 cC6 0 = [0, 0]
    ∧ numGenesToMutate pC6 = 2 := by
  have hk : numGenesToMutate pC6 = 2 := by
    unfold numGenesToMutate roundfTrunc numPointGenes
    norm_num [pC6, pEx]
    rfl
  refine ⟨?_, hk⟩
  show pointMutationDrawsGo (listRng [0, 1, 0, 1]) pC6 (numGenesToMutate pC6) (cC6, 0)
    = [0, 0]
  rw [hk]
  decide

theorem pointMutation_draw_count_and_weights_witness :
    ((0:Nat) ∈ pointMutationDraws (listRng [0, 1, 0, 1]) pC6 cC6 0
      → (0:Nat) < numPointGenes pC6)
    ∧ nodesWeights (pointMutation (listRng [0, 1, 0, 1]) pC6 cC6 0).1
        = nodesWeights cC6 :=
  ⟨fun h =>
    (pointMutation_draw_count_and_weights (listRng [0, 1, 0, 1]) pC6 cC6 0).2.1 0 h,
   (pointMutation_draw_count_and_weights (listRng [0, 1, 0, 1]) pC6 cC6 0).2.2⟩

lemma nodesWeights_probMutationInputStep (R : Rng) (p : Params) (type : Int)
    (i : Nat) (cs : Chromosome × Nat) (j : Nat) (h : type ≠ 0) :
    nodesWeights (probMutationInputStep R p type i cs j).1 = nodesWeights cs.1 := by
  simp only [probMutationInputStep]
  rw [if_neg h]
  split
  · exact nodesWeights_setNodeInputGene _ _ _ _
  · rfl

lemma nodesWeights_foldl_inputStep (R : Rng) (p : Params) (type : Int)
    (i : Nat) (h : type ≠ 0) :
    ∀ (l : List Nat) (acc : Chromosome × Nat),
      nodesWeights ((l.foldl (probMutationInputStep R p type i) acc).1)
        = nodesWeights acc.1 := by
  intro l
  induction l with
  | nil => intro acc; rfl
  | cons a as ih =>
    intro acc
    rw [List.foldl_cons, ih, nodesWeights_probMutationInputStep R p type i acc a h]

lemma nodesWeights_probMutationNodeStep (R : Rng) (p : Params) (type : Int)
    (cs : Chromosome × Nat) (i : Nat) (h : type ≠ 0) :
    nodesWeights (probMutationNodeStep R p type cs i).1 = nodesWeights cs.1 := by
  simp only [probMutationNodeStep]
  rw [nodesWeights_foldl_inputStep R p type i h]
  split
  · split
    · exact nodesWeights_setNodeFunctionGene _ _ _
    · rfl
  · rfl

lemma nodesWeights_probMutationOutputStep (R : Rng) (p : Params)
    (cs : Chromosome × Nat) (i : Nat) :
    nodesWeights (probMutationOutputStep R p cs i).1 = nodesWeights cs.1 := by
  simp only [probMutationOutputStep]
  split
  · exact nodesWeights_setOutputGene _ _ _
  · rfl

lemma nodesWeights_probabilisticMutation (R : Rng) (p : Params)
    (c : Chromosome) (type : Int) (s : Nat) (h : type ≠ 0) :
    nodesWeights (probabilisticMutation R p c type s).1 = nodesWeights c := by
  unfold probabilisticMutation
  have houts : ∀ (l : List Nat) (acc : Chromosome × Nat),
      nodesWeights ((l.foldl (probMutationOutputStep R p) acc).1)
        = nodesWeights acc.1 := by
    intro l
    induction l with
    | nil => intro acc; rfl
    | cons a as ih =>
      intro acc
      rw [List.foldl_cons, ih, nodesWeights_probMutationOutputStep]
  have hnodes : ∀ (l : List Nat) (acc : Chromosome × Nat),
      nodesWeights ((l.foldl (probMutationNodeStep R p type) acc).1)
        = nodesWeights acc.1 := by
    intro l
    induction l with
    | nil => intro acc; rfl
    | cons a as ih =>
      intro acc
      rw [List.foldl_cons, ih, nodesWeights_probMutationNodeStep R p type acc a h]
  rw [houts, hnodes]

lemma nodesWeights_mutateChromosome (R : Rng) (p : Params) (c : Chromosome)
    (type : Int) (s : Nat) (h : type ≠ 0) :
    nodesWeights (mutateChromosome R p c type s).1 = nodesWeights c := by
  unfold mutateChromosome
  rw [nodesWeights_setChromosomeActiveNodes,
    nodesWeights_probabilisticMutation R p c type s h]

lemma getD_mem_of_lt {α : Type} [Inhabited α] (l : List α) (i : Nat)
    (h : i < l.length) : l.getD i default ∈ l := by
  rw [List.getD_eq_getElem?_getD, List.getElem?_eq_getElem h]
  exact List.getElem_mem h

lemma mutateRandomParent_length (R : Rng) (p : Params)
    (parents : List Chromosome) (numParents numChildren : Nat) (type : Int)
    (s : Nat) :
    ((mutateRandomParent R p parents numParents numChildren type s).1).length
      = numChildren := by
  unfold mutateRandomParent
  have : ∀ (l : List Nat) (acc : List Chromosome × Nat),
      ((l.foldl (fun acc _ =>
        let r := randInt R numParents acc.2
        let m := mutateChromosome R p (parents.getD r.1 default) type r.2
        (acc.1 ++ [m.1], m.2)) acc).1).length = acc.1.length + l.length := by
    intro l
    induction l with
    | nil => intro acc; simp
    | cons a as ih =>
      intro acc
      rw [List.foldl_cons, ih]
      simp only [List.length_append, List.length_cons, List.length_nil]
      omega
  rw [this]
  simp

/-- C3 (amended).  The GP phase of `runCGPDE_OUT` reproduces children with
connection-weight mutation **disabled**: the reproduction call passes
mutation type 1 (src/cgpdelib.c line 4355, "do NOT apply weight mutation
here"), under which the default probabilistic mutation never draws or
changes a weight gene, so every child carries exactly its parent's
connection weights — unlike plain CGPANN, whose reproduction passes type 0.
The final DE pass on the best-by-validation topology is then the only
weight-adapting stage. -/
theorem runCGPDE_OUT_reproduce_preserves_weights (R : Rng) (p : Params)
    (parents : List Chromosome) (s : Nat) (hmu : 0 < p.mu)
    (hlen : p.mu ≤ parents.length) :
    ∀ ch ∈ (runCGPDE_OUT_reproduce R p parents s).1,
      ∃ par ∈ parents, nodesWeights ch = nodesWeights par := by
  unfold runCGPDE_OUT_reproduce mutateRandomParent
  have main : ∀ (l : List Nat) (acc : List Chromosome × Nat),
      (∀ ch ∈ acc.1, ∃ par ∈ parents, nodesWeights ch = nodesWeights par) →
      ∀ ch ∈ (l.foldl (fun acc _ =>
          let r := randInt R p.mu acc.2
          let m := mutateChromosome R p (parents.getD r.1 default) 1 r.2
          (acc.1 ++ [m.1], m.2)) acc).1,
        ∃ par ∈ parents, nodesWeights ch = nodesWeights par := by
    intro l
    induction l with
    | nil => intro acc hacc; exact hacc
    | cons a as ih =>
      intro acc hacc
      rw [List.foldl_cons]
      apply ih
      intro ch hch
      rcases List.mem_append.mp hch with hold | hnew
      · exact hacc ch hold
      · have hch1 : ch = (mutateChromosome R p
            (parents.getD (randInt R p.mu acc.2).1 default) 1
            (randInt R p.mu acc.2).2).1 := by
          simpa using hnew
        refine ⟨parents.getD (randInt R p.mu acc.2).1 default, ?_, ?_⟩
        · exact getD_mem_of_lt parents _
            (lt_of_lt_of_le (randInt_lt R p.mu acc.2 hmu) hlen)
        · rw [hch1]
          exact nodesWeights_mutateChromosome R p _ 1 _ (by decide)
  exact main (List.range p.lambda) ([], s) (by intro ch hch; cases hch)

theorem runCGPDE_OUT_reproduce_preserves_weights_witness :
    (0 < pC3.mu ∧ pC3.mu ≤ ([cWEx]:List Chromosome).length) ∧
    ∃ par ∈ ([cWEx]:List Chromosome),
      nodesWeights
          (((runCGPDE_OUT_reproduce (listRng [0, 900000, 0, 0]) pC3 [cWEx] 0).1).getD 0
            default)
        = nodesWeights par := by
  have hlen0 : 0 <
      ((runCGPDE_OUT_reproduce (listRng [0, 900000, 0, 0]) pC3 [cWEx] 0).1).length := by
    unfold runCGPDE_OUT_reproduce
    rw [mutateRandomParent_length]
    decide
  refine ⟨⟨by decide, by decide⟩, ?_⟩
  exact runCGPDE_OUT_reproduce_preserves_weights (listRng [0, 900000, 0, 0]) pC3
    [cWEx] 0 (by decide) (by decide) _
    (getD_mem_of_lt _ 0 hlen0)

/-- C3 counterexample.  On the same parent, parameters and PRNG script,
the CGPDE-OUT reproduction (mutation type 1) returns a child with the
parent's weights `[[0]]`, while the plain-CGPANN reproduction (type 0)
returns a child whose weight was redrawn to `-1`: the GP phase of
`runCGPDE_OUT` is not "the same weight-mutating reproduction as plain
CGPANN". -/
theorem runCGPDE_OUT_reproduce_counterexample :
    nodesWeights
        (((runCGPDE_OUT_reproduce (listRng [0, 900000, 0, 0]) pC3 [cWEx] 0).1).getD 0
          default) = [[0]]
    ∧ nodesWeights
        (((runCGPANN_reproduce (listRng [0, 900000, 0, 0]) pC3 [cWEx] 0).1).getD 0
          default) = [[-1]]
    ∧ nodesWeights cWEx = [[0]] := by
  have hri : randInt (listRng [0, 900000, 0, 0]) 1 0 = (0, 1) := by decide
  have hmu : pC3.mu = 1 := by decide
  have hlam : pC3.lambda = 1 := by decide
  have hr1 : List.range 1 = [0] := by decide
  refine ⟨?_, ?_, by decide⟩
  · unfold runCGPDE_OUT_reproduce mutateRandomParent
    rw [hmu, hlam]
    simp only [hr1, List.foldl_cons, List.foldl_nil, hri, List.nil_append,
      List.getD_cons_zero]
    rw [nodesWeights_mutateChromosome _ _ _ 1 _ (by decide)]
    decide
  · unfold runCGPANN_reproduce mutateRandomParent
    rw [hmu, hlam]
    simp only [hr1, List.foldl_cons, List.foldl_nil, hri, List.nil_append,
      List.getD_cons_zero]
    unfold mutateChromosome
    simp only []
    rw [nodesWeights_setChromosomeActiveNodes]
    norm_num [probabilisticMutation, probMutationNodeStep, probMutationInputStep,
      probMutationOutputStep, randDecimal, listRng, getRandomConnectionWeight,
      setNodeWeightGene, setNodeInputGene, nodesWeights, cWEx, pC3, pEx,
      hr1, List.range_zero]

lemma foldl_rsan_append (c : Chromosome) (fuel : Nat)
    (hf : ∀ st addr, ∃ t, recursivelySetActiveNodes c fuel st addr = st ++ t) :
    ∀ (l : List Nat) (st : List Nat),
      ∃ t, l.foldl (recursivelySetActiveNodes c fuel) st = st ++ t := by
  intro l
  induction l with
  | nil => intro st; exact ⟨[], (List.append_nil st).symm⟩
  | cons a as ih =>
    intro st
    rw [List.foldl_cons]
    obtain ⟨t1, h1⟩ := hf st a
    obtain ⟨t2, h2⟩ := ih (recursivelySetActiveNodes c fuel st a)
    exact ⟨t1 ++ t2, by rw [h2, h1, List.append_assoc]⟩

lemma rsan_append (c : Chromosome) :
    ∀ (fuel : Nat) (st : List Nat) (addr : Nat),
      ∃ t, recursivelySetActiveNodes c fuel st addr = st ++ t := by
  intro fuel
  induction fuel with
  | zero => intro st addr; exact ⟨[], (List.append_nil st).symm⟩
  | succ f ih =>
    intro st addr
    simp only [recursivelySetActiveNodes]
    split
    · exact ⟨[], (List.append_nil st).symm⟩
    · split
      · exact ⟨[], (List.append_nil st).symm⟩
      · obtain ⟨t, ht⟩ := foldl_rsan_append c f ih
          (childAddrs c (addr - c.numInputs)) (st ++ [addr - c.numInputs])
        exact ⟨[addr - c.numInputs] ++ t, by rw [ht, List.append_assoc]⟩

lemma rsan_subset (c : Chromosome) (fuel : Nat) (st : List Nat) (addr : Nat) :
    st ⊆ recursivelySetActiveNodes c fuel st addr := by
  obtain ⟨t, ht⟩ := rsan_append c fuel st addr
  rw [ht]
  exact List.subset_append_left _ _

lemma foldl_rsan_subset (c : Chromosome) (fuel : Nat) (l : List Nat)
    (st : List Nat) :
    st ⊆ l.foldl (recursivelySetActiveNodes c fuel) st := by
  obtain ⟨t, ht⟩ := foldl_rsan_append c fuel (rsan_append c fuel) l st
  rw [ht]
  exact List.subset_append_left _ _

lemma rsan_sound (c : Chromosome) :
    ∀ (fuel : Nat) (st : List Nat) (addr : Nat),
      (∀ n ∈ st, ReachAddr c (c.numInputs + n)) →
      (c.numInputs ≤ addr → ReachAddr c addr) →
      ∀ n ∈ recursivelySetActiveNodes c fuel st addr,
        ReachAddr c (c.numInputs + n) := by
  intro fuel
  induction fuel with
  | zero => intro st addr hst _; exact hst
  | succ f ih =>
    intro st addr hst hj
    simp only [recursivelySetActiveNodes]
    split
    · exact hst
    · split
      · exact hst
      · rename_i h1 h2
        have hle : c.numInputs ≤ addr := Nat.le_of_not_lt h1
        have hra : ReachAddr c addr := hj hle
        have heq : c.numInputs + (addr - c.numInputs) = addr :=
          Nat.add_sub_cancel' hle
        have hst1 : ∀ n ∈ st ++ [addr - c.numInputs],
            ReachAddr c (c.numInputs + n) := by
          intro n hn
          rcases List.mem_append.mp hn with h | h
          · exact hst n h
          · have hn2 : n = addr - c.numInputs := by simpa using h
            subst hn2
            rw [heq]
            exact hra
        have hchild : ∀ b ∈ childAddrs c (addr - c.numInputs),
            c.numInputs ≤ b → ReachAddr c b :=
          fun b hb _ => ReachAddr.child addr b hra hle hb
        have hfold : ∀ (l : List Nat),
            (∀ b ∈ l, c.numInputs ≤ b → ReachAddr c b) →
            ∀ (st2 : List Nat), (∀ n ∈ st2, ReachAddr c (c.numInputs + n)) →
            ∀ n ∈ l.foldl (recursivelySetActiveNodes c f) st2,
              ReachAddr c (c.numInputs + n) := by
          intro l
          induction l with
          | nil => intro _ st2 hst2; exact hst2
          | cons b bs ihl =>
            intro hbl st2 hst2
            rw [List.foldl_cons]
            exact ihl (fun b' hb' => hbl b' (List.mem_cons_of_mem _ hb'))
              _ (ih st2 b hst2 (hbl b (List.mem_cons_self _ _)))
        exact hfold _ hchild _ hst1

lemma childAddrs_bound (c : Chromosome) (hlen : c.nodes.length = c.numNodes)
    (hwf : ∀ nd ∈ c.nodes, ∀ a ∈ nd.inputs, a < c.numInputs + c.numNodes)
    (m : Nat) (hm : m < c.numNodes) :
    ∀ b ∈ childAddrs c m, b < c.numInputs + c.numNodes := by
  intro b hb
  have hnode : c.nodes.getD m default ∈ c.nodes :=
    getD_mem_of_lt c.nodes m (by rw [hlen]; exact hm)
  exact hwf _ hnode b (List.take_subset _ _ hb)

lemma rsan_bound (c : Chromosome) (hlen : c.nodes.length = c.numNodes)
    (hwf : ∀ nd ∈ c.nodes, ∀ a ∈ nd.inputs, a < c.numInputs + c.numNodes) :
    ∀ (fuel : Nat) (st : List Nat) (addr : Nat),
      (∀ n ∈ st, n < c.numNodes) → addr < c.numInputs + c.numNodes →
      ∀ n ∈ recursivelySetActiveNodes c fuel st addr, n < c.numNodes := by
  intro fuel
  induction fuel with
  | zero => intro st addr hst _; exact hst
  | succ f ih =>
    intro st addr hst haddr
    simp only [recursivelySetActiveNodes]
    split
    · exact hst
    · split
      · exact hst
      · rename_i h1 h2
        have hle : c.numInputs ≤ addr := Nat.le_of_not_lt h1
        have hnlt : addr - c.numInputs < c.numNodes := by omega
        have hst1 : ∀ n ∈ st ++ [addr - c.numInputs], n < c.numNodes := by
          intro n hn
          rcases List.mem_append.mp hn with h | h
          · exact hst n h
          · have hn2 : n = addr - c.numInputs := by simpa using h
            subst hn2
            exact hnlt
        have hchild := childAddrs_bound c hlen hwf (addr - c.numInputs) hnlt
        have hfold : ∀ (l : List Nat),
            (∀ b ∈ l, b < c.numInputs + c.numNodes) →
            ∀ (st2 : List Nat), (∀ n ∈ st2, n < c.numNodes) →
            ∀ n ∈ l.foldl (recursivelySetActiveNodes c f) st2, n < c.numNodes := by
          intro l
          induction l with
          | nil => intro _ st2 hst2; exact hst2
          | cons b bs ihl =>
            intro hbl st2 hst2
            rw [List.foldl_cons]
            exact ihl (fun b' hb' => hbl b' (List.mem_cons_of_mem _ hb'))
              _ (ih st2 b hst2 (hbl b (List.mem_cons_self _ _)))
        exact hfold _ hchild _ hst1

lemma rsan_nodup (c : Chromosome) :
    ∀ (fuel : Nat) (st : List Nat) (addr : Nat),
      st.Nodup → (recursivelySetActiveNodes c fuel st addr).Nodup := by
  intro fuel
  induction fuel with
  | zero => intro st addr hst; exact hst
  | succ f ih =>
    intro st addr hst
    simp only [recursivelySetActiveNodes]
    split
    · exact hst
    · split
      · exact hst
      · rename_i h1 h2
        have hst1 : (st ++ [addr - c.numInputs]).Nodup := by
          rw [List.nodup_append]
          exact ⟨hst, List.nodup_singleton _, by
            intro a ha hamem
            have : a = addr - c.numInputs := by simpa using hamem
            subst this
            exact h2 ha⟩
        have hfold : ∀ (l : List Nat) (st2 : List Nat),
            st2.Nodup → (l.foldl (recursivelySetActiveNodes c f) st2).Nodup := by
          intro l
          induction l with
          | nil => intro st2 hst2; exact hst2
          | cons b bs ihl =>
            intro st2 hst2
            rw [List.foldl_cons]
            exact ihl _ (ih st2 b hst2)
        exact hfold _ _ hst1

lemma rsan_marks (c : Chromosome) (fuel : Nat) (hf : 1 ≤ fuel)
    (st : List Nat) (addr : Nat) (hle : c.numInputs ≤ addr) :
    (addr - c.numInputs) ∈ recursivelySetActiveNodes c fuel st addr := by
  obtain ⟨f, rfl⟩ : ∃ f, fuel = f + 1 := ⟨fuel - 1, by omega⟩
  simp only [recursivelySetActiveNodes]
  split
  · rename_i h; exact absurd h (Nat.not_lt.mpr hle)
  · split
    · rename_i h2; exact h2
    · exact foldl_rsan_subset c f _ _
        (List.mem_append_right _ (List.mem_singleton_self _))

lemma nodup_length_le (c : Chromosome) (st : List Nat) (hnd : st.Nodup)
    (hlt : ∀ n ∈ st, n < c.numNodes) : st.length ≤ c.numNodes := by
  classical
  have h1 : st.toFinset.card = st.length := List.toFinset_card_of_nodup hnd
  have h2 : st.toFinset ⊆ Finset.range c.numNodes := by
    intro x hx
    rw [Finset.mem_range]
    exact hlt x (List.mem_toFinset.mp hx)
  calc st.length = st.toFinset.card := h1.symm
    _ ≤ (Finset.range c.numNodes).card := Finset.card_le_card h2
    _ = c.numNodes := Finset.card_range _

lemma NewlyClosed_refl (c : Chromosome) (st : List Nat) :
    NewlyClosed c st st :=
  fun _ hm hnm => (hnm hm).elim

lemma NewlyClosed_trans (c : Chromosome) {st1 st2 st3 : List Nat}
    (h12 : NewlyClosed c st1 st2) (h23 : NewlyClosed c st2 st3)
    (hsub : st2 ⊆ st3) : NewlyClosed c st1 st3 := by
  intro m hm3 hm1 b hb hble
  by_cases hm2 : m ∈ st2
  · exact hsub (h12 m hm2 hm1 b hb hble)
  · exact h23 m hm3 hm2 b hb hble

lemma rsan_closed (c : Chromosome) (hlen : c.nodes.length = c.numNodes)
    (hwf : ∀ nd ∈ c.nodes, ∀ a ∈ nd.inputs, a < c.numInputs + c.numNodes) :
    ∀ (fuel : Nat) (st : List Nat) (addr : Nat),
      c.numNodes + 1 ≤ fuel + st.length →
      (∀ n ∈ st, n < c.numNodes) → st.Nodup →
      addr < c.numInputs + c.numNodes →
      NewlyClosed c st (recursivelySetActiveNodes c fuel st addr) := by
  intro fuel
  induction fuel with
  | zero =>
    intro st addr hbudget hlt hnd _
    exfalso
    have := nodup_length_le c st hnd hlt
    omega
  | succ f ih =>
    intro st addr hbudget hlt hnd haddr
    simp only [recursivelySetActiveNodes]
    split
    · exact NewlyClosed_refl c st
    · split
      · exact NewlyClosed_refl c st
      · rename_i h1 h2
        have hle : c.numInputs ≤ addr := Nat.le_of_not_lt h1
        have hnlt : addr - c.numInputs < c.numNodes := by omega
        have hstlen : st.length ≤ c.numNodes := nodup_length_le c st hnd hlt
        have hst1lt : ∀ m ∈ st ++ [addr - c.numInputs], m < c.numNodes := by
          intro m hm
          rcases List.mem_append.mp hm with h | h
          · exact hlt m h
          · have hm2 : m = addr - c.numInputs := by simpa using h
            subst hm2
            exact hnlt
        have hst1nd : (st ++ [addr - c.numInputs]).Nodup := by
          rw [List.nodup_append]
          exact ⟨hnd, List.nodup_singleton _, by
            intro a ha hamem
            have : a = addr - c.numInputs := by simpa using hamem
            subst this
            exact h2 ha⟩
        have hbudget1 : c.numNodes + 1 ≤ f + (st ++ [addr - c.numInputs]).length := by
          simp only [List.length_append, List.length_cons, List.length_nil]
          omega
        have hchild := childAddrs_bound c hlen hwf (addr - c.numInputs) hnlt
        have hfold : ∀ (l : List Nat),
            (∀ b ∈ l, b < c.numInputs + c.numNodes) →
            ∀ (st2 : List Nat),
              (∀ m ∈ st2, m < c.numNodes) → st2.Nodup →
              c.numNodes + 1 ≤ f + st2.length →
              (∀ b ∈ l, c.numInputs ≤ b →
                (b - c.numInputs) ∈ l.foldl (recursivelySetActiveNodes c f) st2)
              ∧ NewlyClosed c st2 (l.foldl (recursivelySetActiveNodes c f) st2)
              ∧ st2 ⊆ l.foldl (recursivelySetActiveNodes c f) st2 := by
          intro l
          induction l with
          | nil =>
            intro _ st2 _ _ _
            exact ⟨fun b hb => absurd hb (List.not_mem_nil b),
              NewlyClosed_refl c st2, fun x h => h⟩
          | cons b bs ihl =>
            intro hbl st2 hlt2 hnd2 hb2
            rw [List.foldl_cons]
            have hblt : b < c.numInputs + c.numNodes :=
              hbl b (List.mem_cons_self _ _)
            have hlt3 : ∀ m ∈ recursivelySetActiveNodes c f st2 b, m < c.numNodes :=
              rsan_bound c hlen hwf f st2 b hlt2 hblt
            have hnd3 : (recursivelySetActiveNodes c f st2 b).Nodup :=
              rsan_nodup c f st2 b hnd2
            have hsub23 : st2 ⊆ recursivelySetActiveNodes c f st2 b :=
              rsan_subset c f st2 b
            have hlen3 : st2.length ≤ (recursivelySetActiveNodes c f st2 b).length := by
              obtain ⟨t, ht⟩ := rsan_append c f st2 b
              rw [ht]
              simp
            have hb3 : c.numNodes + 1 ≤ f + (recursivelySetActiveNodes c f st2 b).length := by
              omega
            obtain ⟨A, B, S⟩ := ihl (fun b' hb' => hbl b' (List.mem_cons_of_mem _ hb'))
              (recursivelySetActiveNodes c f st2 b) hlt3 hnd3 hb3
            have hf1 : 1 ≤ f := by
              have := nodup_length_le c st2 hnd2 hlt2
              omega
            refine ⟨?_, ?_, fun x hx => S (hsub23 hx)⟩
            · intro b' hb' hble'
              rcases List.mem_cons.mp hb' with rfl | hmem
              · exact S (rsan_marks c f hf1 st2 b' hble')
              · exact A b' hmem hble'
            · exact NewlyClosed_trans c (ih st2 b hb2 hlt2 hnd2 hblt) B S
        obtain ⟨A, B, _⟩ := hfold (childAddrs c (addr - c.numInputs)) hchild
          (st ++ [addr - c.numInputs]) hst1lt hst1nd hbudget1
        intro m hm hnm b hb hble
        by_cases hmn : m = addr - c.numInputs
        · subst hmn
          exact A b hb hble
        · have hm1 : m ∉ st ++ [addr - c.numInputs] := by
            simp only [List.mem_append, List.mem_singleton]
            rintro (h | h)
            · exact hnm h
            · exact hmn h
          exact B m hm hm1 b hb hble

lemma chromoVisited_props (c : Chromosome) (hWF : WFChromosome c) :
    (∀ n ∈ chromoVisited c, ReachAddr c (c.numInputs + n))
    ∧ (∀ o ∈ c.outputNodes, c.numInputs ≤ o → (o - c.numInputs) ∈ chromoVisited c)
    ∧ NewlyClosed c [] (chromoVisited c)
    ∧ (chromoVisited c).Nodup := by
  obtain ⟨hlen, hwf, hout⟩ := hWF
  have main : ∀ (l : List Nat), (∀ o ∈ l, o ∈ c.outputNodes) →
      ∀ (st : List Nat), (∀ n ∈ st, ReachAddr c (c.numInputs + n)) →
        (∀ n ∈ st, n < c.numNodes) → st.Nodup →
        (∀ n ∈ l.foldl (fun st o => if o < c.numInputs then st
            else recursivelySetActiveNodes c (c.numNodes + 1) st o) st,
          ReachAddr c (c.numInputs + n))
        ∧ (∀ o ∈ l, c.numInputs ≤ o →
            (o - c.numInputs) ∈ l.foldl (fun st o => if o < c.numInputs then st
              else recursivelySetActiveNodes c (c.numNodes + 1) st o) st)
        ∧ NewlyClosed c st (l.foldl (fun st o => if o < c.numInputs then st
            else recursivelySetActiveNodes c (c.numNodes + 1) st o) st)
        ∧ (∀ n ∈ l.foldl (fun st o => if o < c.numInputs then st
            else recursivelySetActiveNodes c (c.numNodes + 1) st o) st,
            n < c.numNodes)
        ∧ (l.foldl (fun st o => if o < c.numInputs then st
            else recursivelySetActiveNodes c (c.numNodes + 1) st o) st).Nodup
        ∧ st ⊆ l.foldl (fun st o => if o < c.numInputs then st
            else recursivelySetActiveNodes c (c.numNodes + 1) st o) st := by
    intro l
    induction l with
    | nil =>
      intro _ st hsound hbound hnd
      exact ⟨hsound, fun o ho => absurd ho (List.not_mem_nil o),
        NewlyClosed_refl c st, hbound, hnd, fun x h => h⟩
    | cons o os ihl =>
      intro hol st hsound hbound hnd
      rw [List.foldl_cons]
      have homem : o ∈ c.outputNodes := hol o (List.mem_cons_self _ _)
      have holt : o < c.numInputs + c.numNodes := hout o homem
      by_cases ho : o < c.numInputs
      · rw [if_pos ho]
        obtain ⟨P1, P2, P3, P4, P5, P6⟩ := ihl
          (fun o' ho' => hol o' (List.mem_cons_of_mem _ ho')) st hsound hbound hnd
        refine ⟨P1, ?_, P3, P4, P5, P6⟩
        intro o' ho' hle'
        rcases List.mem_cons.mp ho' with rfl | hmem
        · exact absurd ho (Nat.not_lt.mpr hle')
        · exact P2 o' hmem hle'
      · rw [if_neg ho]
        have hle : c.numInputs ≤ o := Nat.le_of_not_lt ho
        have hsound2 : ∀ n ∈ recursivelySetActiveNodes c (c.numNodes + 1) st o,
            ReachAddr c (c.numInputs + n) :=
          rsan_sound c _ st o hsound (fun h => ReachAddr.output o homem h)
        have hbound2 : ∀ n ∈ recursivelySetActiveNodes c (c.numNodes + 1) st o,
            n < c.numNodes :=
          rsan_bound c hlen hwf _ st o hbound holt
        have hnd2 : (recursivelySetActiveNodes c (c.numNodes + 1) st o).Nodup :=
          rsan_nodup c _ st o hnd
        have hclosed2 : NewlyClosed c st (recursivelySetActiveNodes c (c.numNodes + 1) st o) :=
          rsan_closed c hlen hwf _ st o (by omega) hbound hnd holt
        have hsub2 : st ⊆ recursivelySetActiveNodes c (c.numNodes + 1) st o :=
          rsan_subset c _ st o
        have hmark2 : (o - c.numInputs) ∈ recursivelySetActiveNodes c (c.numNodes + 1) st o :=
          rsan_marks c _ (by omega) st o hle
        obtain ⟨P1, P2, P3, P4, P5, P6⟩ := ihl
          (fun o' ho' => hol o' (List.mem_cons_of_mem _ ho'))
          (recursivelySetActiveNodes c (c.numNodes + 1) st o) hsound2 hbound2 hnd2
        refine ⟨P1, ?_, NewlyClosed_trans c hclosed2 P3 P6, P4, P5,
          fun x hx => P6 (hsub2 hx)⟩
        intro o' ho' hle'
        rcases List.mem_cons.mp ho' with rfl | hmem
        · exact P6 hmark2
        · exact P2 o' hmem hle'
  have h := main c.outputNodes (fun o ho => ho) []
    (fun n hn => absurd hn (List.not_mem_nil n))
    (fun n hn => absurd hn (List.not_mem_nil n)) List.nodup_nil
  exact ⟨h.1, h.2.1, h.2.2.1, h.2.2.2.2.1⟩

lemma reach_marked (c : Chromosome) (hWF : WFChromosome c) :
    ∀ a, ReachAddr c a → c.numInputs ≤ a →
      (a - c.numInputs) ∈ chromoVisited c := by
  obtain ⟨_, hroots, hclosed, _⟩ := chromoVisited_props c hWF
  intro a hr
  induction hr with
  | output a hmem hle2 => intro _; exact hroots a hmem hle2
  | child a b hra hlea hb ihr =>
    intro hleb
    exact hclosed (a - c.numInputs) (ihr hlea) (List.not_mem_nil _) b hb hleb

/-- C2.  After `setChromosomeActiveNodes`, the active-node list contains
exactly the nodes reachable from some output gene by following the input
genes of reached nodes limited to each node's actual arity (node index `n`
is listed iff address `numInputs + n` is reachable), the list is sorted
ascending, and it lists each node at most once. -/
theorem setChromosomeActiveNodes_spec (c : Chromosome) (hWF : WFChromosome c) :
    (∀ n, n ∈ (setChromosomeActiveNodes c).activeNodes
      ↔ ReachAddr c (c.numInputs + n))
    ∧ List.Sorted (· ≤ ·) (setChromosomeActiveNodes c).activeNodes
    ∧ (setChromosomeActiveNodes c).activeNodes.Nodup := by
  obtain ⟨hsound, _, _, hnodup⟩ := chromoVisited_props c hWF
  have hact : (setChromosomeActiveNodes c).activeNodes
      = (chromoVisited c).mergeSort (fun a b => decide (a ≤ b)) := rfl
  have hperm := List.mergeSort_perm (chromoVisited c) (fun a b => decide (a ≤ b))
  refine ⟨?_, ?_, ?_⟩
  · intro n
    rw [hact, hperm.mem_iff]
    constructor
    · exact fun h => hsound n h
    · intro hr
      have h := reach_marked c hWF (c.numInputs + n) hr (Nat.le_add_right _ _)
      simpa using h
  · rw [hact]
    have htrans : ∀ (a b c' : Nat), decide (a ≤ b) = true → decide (b ≤ c') = true →
        decide (a ≤ c') = true := by
      intro a b c' hab hbc
      simp only [decide_eq_true_eq] at *
      omega
    have htotal : ∀ (a b : Nat), (decide (a ≤ b) || decide (b ≤ a)) = true := by
      intro a b
      simp only [Bool.or_eq_true, decide_eq_true_eq]
      omega
    have hs := List.sorted_mergeSort htrans htotal (chromoVisited c)
    exact hs.imp (fun h => of_decide_eq_true h)
  · rw [hact, hperm.nodup_iff]
    exact hnodup

theorem setChromosomeActiveNodes_spec_witness :
    WFChromosome cNanEx
    ∧ List.Sorted (· ≤ ·) (setChromosomeActiveNodes cNanEx).activeNodes :=
  ⟨by decide, (setChromosomeActiveNodes_spec cNanEx (by decide)).2.1⟩

lemma getD_mem_of_lt' {α : Type} (l : List α) (i : Nat) (d : α)
    (h : i < l.length) : l.getD i d ∈ l := by
  rw [List.getD_eq_getElem?_getD, List.getElem?_eq_getElem h]
  exact List.getElem_mem h

lemma sameNodeShape_refl (n : Node) : sameNodeShape n n :=
  ⟨rfl, rfl, rfl, rfl, rfl⟩

lemma sameNodeShape_trans {a b c : Node} (h1 : sameNodeShape a b)
    (h2 : sameNodeShape b c) : sameNodeShape a c :=
  ⟨h1.1.trans h2.1, h1.2.1.trans h2.2.1, h1.2.2.1.trans h2.2.2.1,
   h1.2.2.2.1.trans h2.2.2.2.1, h1.2.2.2.2.trans h2.2.2.2.2⟩

lemma node_update_output_eq {n1 n2 : Node} (h : sameNodeShape n1 n2) (o : DVal) :
    { n1 with output := o } = { n2 with output := o } := by
  obtain ⟨h1, h2, h3, h4, h5⟩ := h
  cases n1
  cases n2
  simp only at h1 h2 h3 h4 h5
  simp [h1, h2, h3, h4, h5]

lemma update_output_shape (n : Node) (o : DVal) :
    sameNodeShape { n with output := o } n :=
  ⟨rfl, rfl, rfl, rfl, rfl⟩

lemma getD_set_shape (l : List Node) (idx : Nat) (x : Node)
    (hx : sameNodeShape x (l.getD idx default)) (m : Nat) :
    sameNodeShape ((l.set idx x).getD m default) (l.getD m default) := by
  rw [getD_set_eq_ite]
  split
  · rename_i h
    rw [← h.1]
    exact hx
  · exact sameNodeShape_refl _

lemma execStep_agree (c : Chromosome) (inputs : List DVal) (hpure : PureFuncs c)
    (d d' : Chromosome) (gd gd' : Nat) (idx : Nat)
    (hfd : d.funcs = c.funcs) (hfd' : d'.funcs = c.funcs)
    (hsh : ∀ m, sameNodeShape (d.nodes.getD m default) (c.nodes.getD m default))
    (hsh' : ∀ m, sameNodeShape (d'.nodes.getD m default) (c.nodes.getD m default))
    (hops : ∀ a ∈ usedInputs c idx, gatherVal d inputs a = gatherVal d' inputs a) :
    ∃ out : DVal,
      executeNodeStep inputs (d, gd) idx
        = ({ d with nodes :=
              d.nodes.set idx ({ d.nodes.getD idx default with output := out }) }, gd)
      ∧ executeNodeStep inputs (d', gd') idx
        = ({ d' with nodes :=
              d'.nodes.set idx ({ d'.nodes.getD idx default with output := out }) }, gd') := by
  obtain ⟨hf1, hi1, hw1, ha1, _⟩ := hsh idx
  obtain ⟨hf1', hi1', hw1', ha1', _⟩ := hsh' idx
  have haddr : (d.nodes.getD idx default).inputs.take
      (d.nodes.getD idx default).actArity.toNat = usedInputs c idx := by
    rw [hi1, ha1]
    rfl
  have haddr' : (d'.nodes.getD idx default).inputs.take
      (d'.nodes.getD idx default).actArity.toNat = usedInputs c idx := by
    rw [hi1', ha1']
    rfl
  have hopsmap : (usedInputs c idx).map (gatherVal d inputs)
      = (usedInputs c idx).map (gatherVal d' inputs) :=
    List.map_congr_left hops
  have hfn : d.funcs.getD (d.nodes.getD idx default).function
        (fun _ _ _ g => (.fin 0, g))
      = c.funcs.getD (c.nodes.getD idx default).function
        (fun _ _ _ g => (.fin 0, g)) := by
    rw [hfd, hf1]
  have hfn' : d'.funcs.getD (d'.nodes.getD idx default).function
        (fun _ _ _ g => (.fin 0, g))
      = c.funcs.getD (c.nodes.getD idx default).function
        (fun _ _ _ g => (.fin 0, g)) := by
    rw [hfd', hf1']
  have hpureApp : ∀ (n : Nat) (a : List DVal) (w : List ℚ) (g1 g2 : Nat),
      ((c.funcs.getD (c.nodes.getD idx default).function
          (fun _ _ _ g => (.fin 0, g))) n a w g1).2 = g1
      ∧ ((c.funcs.getD (c.nodes.getD idx default).function
          (fun _ _ _ g => (.fin 0, g))) n a w g1).1
        = ((c.funcs.getD (c.nodes.getD idx default).function
          (fun _ _ _ g => (.fin 0, g))) n a w g2).1 := by
    intro n a w g1 g2
    by_cases hlt : (c.nodes.getD idx default).function < c.funcs.length
    · exact hpure _ (getD_mem_of_lt' _ _ _ hlt) n a w g1 g2
    · rw [List.getD_eq_default _ _ (Nat.le_of_not_lt hlt)]
      exact ⟨rfl, rfl⟩
  refine ⟨sanitizeNodeOutput
      ((c.funcs.getD (c.nodes.getD idx default).function
        (fun _ _ _ g => (.fin 0, g)))
        (c.nodes.getD idx default).actArity.toNat
        ((usedInputs c idx).map (gatherVal d inputs))
        (c.nodes.getD idx default).weights 0).1, ?_, ?_⟩
  · simp only [executeNodeStep]
    rw [haddr, hfn, ha1, hw1]
    have hsnd := (hpureApp (c.nodes.getD idx default).actArity.toNat
      ((usedInputs c idx).map (gatherVal d inputs))
      (c.nodes.getD idx default).weights gd 0).1
    have hfst := (hpureApp (c.nodes.getD idx default).actArity.toNat
      ((usedInputs c idx).map (gatherVal d inputs))
      (c.nodes.getD idx default).weights gd 0).2
    rw [hsnd, hfst]
  · simp only [executeNodeStep]
    rw [haddr', hfn', ha1', hw1', ← hopsmap]
    have hsnd := (hpureApp (c.nodes.getD idx default).actArity.toNat
      ((usedInputs c idx).map (gatherVal d inputs))
      (c.nodes.getD idx default).weights gd' 0).1
    have hfst := (hpureApp (c.nodes.getD idx default).actArity.toNat
      ((usedInputs c idx).map (gatherVal d inputs))
      (c.nodes.getD idx default).weights gd' 0).2
    rw [hsnd, hfst]

lemma sameNodeShape_symm {a b : Node} (h : sameNodeShape a b) :
    sameNodeShape b a :=
  ⟨h.1.symm, h.2.1.symm, h.2.2.1.symm, h.2.2.2.1.symm, h.2.2.2.2.symm⟩

lemma exec_det (c : Chromosome) (inputs : List DVal) (hpure : PureFuncs c) :
    ∀ (LS P : List Nat) (d d' : Chromosome) (gd gd' : Nat),
      (P ++ LS).Nodup →
      (∀ m ∈ LS, m < c.nodes.length) →
      FFOkGo c P LS = true →
      d.funcs = c.funcs → d'.funcs = c.funcs →
      d.numInputs = c.numInputs → d'.numInputs = c.numInputs →
      d.nodes.length = c.nodes.length → d'.nodes.length = c.nodes.length →
      (∀ m, sameNodeShape (d.nodes.getD m default) (c.nodes.getD m default)) →
      (∀ m, sameNodeShape (d'.nodes.getD m default) (c.nodes.getD m default)) →
      (∀ m ∈ P, d.nodes.getD m default = d'.nodes.getD m default) →
      ((LS.foldl (executeNodeStep inputs) (d, gd)).2 = gd
       ∧ (LS.foldl (executeNodeStep inputs) (d', gd')).2 = gd'
       ∧ (∀ m, m ∈ P ∨ m ∈ LS →
           (LS.foldl (executeNodeStep inputs) (d, gd)).1.nodes.getD m default
             = (LS.foldl (executeNodeStep inputs) (d', gd')).1.nodes.getD m default)
       ∧ (∀ m, m ∉ LS →
           (LS.foldl (executeNodeStep inputs) (d, gd)).1.nodes.getD m default
             = d.nodes.getD m default)
       ∧ (∀ m, m ∉ LS →
           (LS.foldl (executeNodeStep inputs) (d', gd')).1.nodes.getD m default
             = d'.nodes.getD m default)) := by
  intro LS
  induction LS with
  | nil =>
    intro P d d' gd gd' _ _ _ _ _ _ _ _ _ _ _ hP
    refine ⟨rfl, rfl, ?_, fun m _ => rfl, fun m _ => rfl⟩
    intro m hm
    rcases hm with hm | hm
    · exact hP m hm
    · cases hm
  | cons idx rest ih =>
    intro P d d' gd gd' hndp hbound hff hfd hfd' hnumd hnumd' hlend hlend' hsh hsh' hP
    have hidxlt : idx < c.nodes.length := hbound idx (List.mem_cons_self _ _)
    have hppr : P ++ idx :: rest = (P ++ [idx]) ++ rest := by simp
    have hndp2 : ((P ++ [idx]) ++ rest).Nodup := by rwa [hppr] at hndp
    have hidxP : idx ∉ P := by
      rcases List.nodup_append.mp hndp with ⟨_, _, hdisj⟩
      intro hin
      exact hdisj hin (List.mem_cons_self _ _)
    simp only [FFOkGo, Bool.and_eq_true, List.all_eq_true] at hff
    obtain ⟨hffidx, hffrest⟩ := hff
    have hops : ∀ a ∈ usedInputs c idx,
        gatherVal d inputs a = gatherVal d' inputs a := by
      intro a ha
      have hcond := hffidx a ha
      simp only [Bool.or_eq_true, decide_eq_true_eq] at hcond
      by_cases hlt2 : a < c.numInputs
      · simp only [gatherVal, hnumd, hnumd', if_pos hlt2]
      · rcases hcond with hlt | hmemP
        · exact absurd hlt hlt2
        · simp only [gatherVal, hnumd, hnumd', if_neg hlt2, hP _ hmemP]
    obtain ⟨out, hstep, hstep'⟩ :=
      execStep_agree c inputs hpure d d' gd gd' idx hfd hfd' hsh hsh' hops
    rw [List.foldl_cons, List.foldl_cons, hstep, hstep']
    have hshd2 : ∀ m, sameNodeShape
        (((d.nodes.set idx
          ({ d.nodes.getD idx default with output := out })).getD m default))
        (c.nodes.getD m default) :=
      fun m => sameNodeShape_trans
        (getD_set_shape _ _ _ (update_output_shape _ _) m) (hsh m)
    have hshd2' : ∀ m, sameNodeShape
        (((d'.nodes.set idx
          ({ d'.nodes.getD idx default with output := out })).getD m default))
        (c.nodes.getD m default) :=
      fun m => sameNodeShape_trans
        (getD_set_shape _ _ _ (update_output_shape _ _) m) (hsh' m)
    have hP2 : ∀ m ∈ P ++ [idx],
        (d.nodes.set idx ({ d.nodes.getD idx default with output := out })).getD m default
          = (d'.nodes.set idx ({ d'.nodes.getD idx default with output := out })).getD m default := by
      intro m hm
      rcases List.mem_append.mp hm with hm | hm
      · have hne : idx ≠ m := fun h => hidxP (h ▸ hm)
        rw [getD_set_eq_ite, getD_set_eq_ite]
        rw [if_neg (fun hc => hne hc.1), if_neg (fun hc => hne hc.1)]
        exact hP m hm
      · have hm2 : m = idx := by simpa using hm
        subst hm2
        rw [getD_set_eq_ite, getD_set_eq_ite]
        rw [if_pos ⟨rfl, by omega⟩, if_pos ⟨rfl, by omega⟩]
        exact node_update_output_eq
          (sameNodeShape_trans (hsh m) (sameNodeShape_symm (hsh' m))) out
    obtain ⟨ih1, ih2, ih3, ih4, ih5⟩ := ih (P ++ [idx])
      { d with nodes := d.nodes.set idx ({ d.nodes.getD idx default with output := out }) }
      { d' with nodes := d'.nodes.set idx ({ d'.nodes.getD idx default with output := out }) }
      gd gd' hndp2 (fun m hm => hbound m (List.mem_cons_of_mem _ hm)) hffrest
      hfd hfd' hnumd hnumd'
      (by simpa using hlend) (by simpa using hlend') hshd2 hshd2' hP2
    refine ⟨ih1, ih2, ?_, ?_, ?_⟩
    · intro m hm
      apply ih3 m
      rcases hm with hm | hm
      · exact Or.inl (List.mem_append_left _ hm)
      · rcases List.mem_cons.mp hm with hm | hm
        · exact Or.inl (List.mem_append_right _ (by simp [hm]))
        · exact Or.inr hm
    · intro m hm
      have hm1 : m ≠ idx := fun h => hm (h ▸ List.mem_cons_self _ _)
      have hm2 : m ∉ rest := fun h => hm (List.mem_cons_of_mem _ h)
      rw [ih4 m hm2]
      rw [getD_set_eq_ite, if_neg (fun hc => hm1 hc.1.symm)]
    · intro m hm
      have hm1 : m ≠ idx := fun h => hm (h ▸ List.mem_cons_self _ _)
      have hm2 : m ∉ rest := fun h => hm (List.mem_cons_of_mem _ h)
      rw [ih5 m hm2]
      rw [getD_set_eq_ite, if_neg (fun hc => hm1 hc.1.symm)]

lemma foldl_exec_eq_update (inputs : List DVal) (L' : List Nat)
    (cg : Chromosome × Nat) :
    (L'.foldl (executeNodeStep inputs) cg).1
      = { cg.1 with nodes := (L'.foldl (executeNodeStep inputs) cg).1.nodes } := by
  induction L' generalizing cg with
  | nil => rfl
  | cons a as ih =>
    rw [List.foldl_cons]
    rw [ih (executeNodeStep inputs cg a)]
    rfl

lemma foldl_exec_shape (inputs : List DVal) (L' : List Nat)
    (cg : Chromosome × Nat) (m : Nat) :
    sameNodeShape ((L'.foldl (executeNodeStep inputs) cg).1.nodes.getD m default)
      (cg.1.nodes.getD m default) := by
  induction L' generalizing cg with
  | nil => exact sameNodeShape_refl _
  | cons a as ih =>
    rw [List.foldl_cons]
    exact sameNodeShape_trans (ih (executeNodeStep inputs cg a))
      (getD_set_shape _ _ _ (update_output_shape _ _) m)

lemma nodes_ext (l1 l2 : List Node) (hlen : l1.length = l2.length)
    (h : ∀ m, l1.getD m default = l2.getD m default) : l1 = l2 := by
  apply List.ext_getElem hlen
  intro i h1 h2
  have hm := h i
  rw [List.getD_eq_getElem?_getD, List.getD_eq_getElem?_getD,
    List.getElem?_eq_getElem h1, List.getElem?_eq_getElem h2] at hm
  simpa using hm

/-- C8 (amended).  Every random draw of the evolutionary machinery
(`randInt`, `randDecimal` and the `getRandom*` generators) reads and
advances only the caller-supplied `rand_r` seed, but the `_randFloat`
node function uses the implicit global `rand()` (see the counterexample).
For a chromosome whose transfer functions are pure — the whole catalog
except `rand` — execution does not consume the global state, and a second
execution of a feed-forward (non-recurrent) chromosome on the same input
vector returns the chromosome unchanged, so repeated outputs are
bit-identical. -/
theorem executeChromosome_pure_deterministic (c : Chromosome)
    (inputs : List DVal) (g g' : Nat) (hpure : PureFuncs c)
    (hff : FFOkGo c [] c.activeNodes = true) (hnd : c.activeNodes.Nodup)
    (hidx : ∀ n ∈ c.activeNodes, n < c.nodes.length) :
    (executeChromosome c inputs g).2 = g
    ∧ executeChromosome ((executeChromosome c inputs g).1) inputs g'
        = ((executeChromosome c inputs g).1, g') := by
  have hc1 : (executeChromosome c inputs g).1
      = { (c.activeNodes.foldl (executeNodeStep inputs) (c, g)).1 with
          outputValues :=
            (c.activeNodes.foldl (executeNodeStep inputs) (c, g)).1.outputNodes.map
              (gatherVal (c.activeNodes.foldl (executeNodeStep inputs) (c, g)).1 inputs) } :=
    rfl
  have hactive : ((executeChromosome c inputs g).1).activeNodes = c.activeNodes := by
    rw [hc1, foldl_exec_eq_update]
  have hfuncs1 : ((executeChromosome c inputs g).1).funcs = c.funcs := by
    rw [hc1, foldl_exec_eq_update]
  have hnum1 : ((executeChromosome c inputs g).1).numInputs = c.numInputs := by
    rw [hc1, foldl_exec_eq_update]
  have hnodes1 : ((executeChromosome c inputs g).1).nodes
      = (c.activeNodes.foldl (executeNodeStep inputs) (c, g)).1.nodes := rfl
  have hlen1 : ((executeChromosome c inputs g).1).nodes.length = c.nodes.length := by
    rw [hnodes1, foldl_executeNodeStep_length]
  have hshape1 : ∀ m,
      sameNodeShape (((executeChromosome c inputs g).1).nodes.getD m default)
        (c.nodes.getD m default) := by
    intro m
    rw [hnodes1]
    exact foldl_exec_shape inputs c.activeNodes (c, g) m
  obtain ⟨h1, h2, h3, h4, h5⟩ := exec_det c inputs hpure c.activeNodes []
    c ((executeChromosome c inputs g).1) g g' (by simpa using hnd) hidx hff rfl
    hfuncs1 rfl hnum1 rfl hlen1 (fun m => sameNodeShape_refl _) hshape1
    (by intro m hm; cases hm)
  refine ⟨h1, ?_⟩
  have hnodesA2 : (c.activeNodes.foldl (executeNodeStep inputs)
        ((executeChromosome c inputs g).1, g')).1.nodes
      = ((executeChromosome c inputs g).1).nodes := by
    apply nodes_ext
    · rw [foldl_executeNodeStep_length]
    · intro m
      by_cases hm : m ∈ c.activeNodes
      · rw [← h3 m (Or.inr hm), hnodes1]
      · rw [h5 m hm]
  have hA21 : (c.activeNodes.foldl (executeNodeStep inputs)
        ((executeChromosome c inputs g).1, g')).1
      = (executeChromosome c inputs g).1 := by
    rw [foldl_exec_eq_update, hnodesA2]
  have hB : executeChromosome ((executeChromosome c inputs g).1) inputs g'
      = ({ (((executeChromosome c inputs g).1).activeNodes.foldl
            (executeNodeStep inputs) ((executeChromosome c inputs g).1, g')).1 with
          outputValues :=
            (((executeChromosome c inputs g).1).activeNodes.foldl
              (executeNodeStep inputs) ((executeChromosome c inputs g).1, g')).1.outputNodes.map
              (gatherVal (((executeChromosome c inputs g).1).activeNodes.foldl
                (executeNodeStep inputs) ((executeChromosome c inputs g).1, g')).1 inputs) },
         (((executeChromosome c inputs g).1).activeNodes.foldl
           (executeNodeStep inputs) ((executeChromosome c inputs g).1, g')).2) := rfl
  rw [hB, hactive, hA21, h2]
  simp only [Prod.mk.injEq, and_true]
  rfl

theorem executeChromosome_pure_deterministic_witness :
    (FFOkGo cNanEx [] cNanEx.activeNodes = true ∧ cNanEx.activeNodes.Nodup) ∧
    executeChromosome ((executeChromosome cNanEx [.fin 3] 0).1) [.fin 3] 5
      = ((executeChromosome cNanEx [.fin 3] 0).1, 5) :=
  ⟨⟨by decide, by decide⟩,
   (executeChromosome_pure_deterministic cNanEx [.fin 3] 0 5
     (by
       intro fn hfn n a w g1 g2
       have hfe : fn = fConstNan := by simpa [cNanEx] using hfn
       subst hfe
       exact ⟨rfl, rfl⟩)
     (by decide) (by decide) (by decide)).2⟩

/-- C8 counterexample.  The `rand` catalog function (`_randFloat`) reads
and advances the global `rand()` state, not the caller-supplied seed:
executing the fixed non-recurrent chromosome `cRandEx` twice on the same
input vector advances the global state and yields different output
vectors, so the claim fails for chromosomes using that function. -/
theorem executeChromosome_randFloat_state_dependent :
    (executeChromosome cRandEx [.fin 3] 0).2 ≠ 0
    ∧ ((executeChromosome cRandEx [.fin 3] 0).1).outputValues
        ≠ ((executeChromosome ((executeChromosome cRandEx [.fin 3] 0).1) [.fin 3]
              (executeChromosome cRandEx [.fin 3] 0).2).1).outputValues := by
  constructor
  · decide
  · norm_num [executeChromosome, executeNodeStep, gatherVal, sanitizeNodeOutput,
      disnan, disinf, dgtZero, mkRandFloat, seqRng, cRandEx, RAND_MAX,
      List.foldl_cons, List.foldl_nil, List.set]

end CGPDE
